import Mathlib

/-!
Verification of the RELI preprocessing script (`preprocess.py`).

The script is a single-pass scanner (`ReliReader.read_sentences`) over the
concatenated lines of a list of input files.  It classifies each line
(skip / metadata directive / blank separator / content), maintains a mutable
metadata dictionary and a pending sentence buffer, and yields
`(metadata, (sentence, label))` records at sentence boundaries.

Shallow embedding conventions:
* Python strings are modelled as `List Char` (`PyStr`); `pstr` injects Lean
  string literals.  String methods (`startswith`, `strip`, `split`,
  `replace`, `join`) are modelled by executable functions on `List Char`,
  restricted to ASCII whitespace where Python strips Unicode whitespace
  (the corpus and all directive padding are ASCII).
* The input of the scan is the ordered list of `(filename, line-text)` pairs
  that `read_lines` would produce; line text keeps its trailing newline,
  exactly as Python file iteration yields it.
* Python `int(...)` / `float(...)` parsing is modelled by `pyInt` /
  `pyFloatValid` over ASCII literals; a float value is represented by its
  accepted literal text (its IEEE value is irrelevant to the claims).
  A parse failure is a `ScanError`, modelling the uncaught `ValueError`.
* The mutable `metadata_fields` dict is a `Metadata` record threaded through
  an explicit state; the generator is a function returning the list of
  emitted records together with an optional error (records yielded before
  the error are kept, as a consumer of the Python generator receives them).
* Each buffer entry keeps the filename of the line that produced it as ghost
  provenance; `convert_buffer` only ever reads the text component, exactly
  like the source, so the provenance is observationally inert.
-/

/-- Python strings, modelled as their list of characters. -/
abbrev PyStr := List Char

/-- Inject a Lean string literal as a `PyStr`. -/
def pstr (s : String) : PyStr := s.data

/-- `s.startswith(p)` on our string model. -/
def pyStartsWith (s p : PyStr) : Bool := p.isPrefixOf s

/-- `s.endswith(p)` on our string model. -/
def pyEndsWith (s p : PyStr) : Bool := p.isSuffixOf s

/-- The ASCII whitespace characters removed by Python's `str.strip()`
(the corpus is ASCII apart from the directive markers, which contain no
whitespace). -/
def isPySpace (c : Char) : Bool :=
  c = ' ' || c = '\t' || c = '\n' || c = '\r' || c = '\x0b' || c = '\x0c'

/-- Remove characters satisfying `p` from both ends of a list. -/
def stripWhile (p : Char → Bool) (l : PyStr) : PyStr :=
  ((l.dropWhile p).reverse.dropWhile p).reverse

/-- Python `str.strip()` (no argument): strip whitespace from both ends. -/
def pyStrip (l : PyStr) : PyStr := stripWhile isPySpace l

/-- Python `str.strip("_")`: strip underscores from both ends. -/
def stripUnderscores (l : PyStr) : PyStr := stripWhile (fun c => c = '_') l

/-- Worker for `pyRemoveAll`, structurally recursive on a fuel argument so
that the kernel can evaluate it (fuel `≥ l.length` never runs out: each
step consumes at least one character). -/
def pyRemoveAllFuel (pat : PyStr) : Nat → PyStr → PyStr
  | _, [] => []
  | 0, l => l
  | fuel + 1, c :: cs =>
    if pat ≠ [] ∧ pat.isPrefixOf (c :: cs) then
      pyRemoveAllFuel pat fuel (cs.drop (pat.length - 1))
    else
      c :: pyRemoveAllFuel pat fuel cs

/-- Python `s.replace(pat, "")` for a fixed pattern: delete every
(left-to-right, non-overlapping) occurrence of `pat` in `s`. -/
def pyRemoveAll (pat : PyStr) (l : PyStr) : PyStr :=
  pyRemoveAllFuel pat l.length l

/-- Python `line.split("\t")`: split at every tab.  Always returns at least
one column (`"".split("\t") == [""]`). -/
def splitTab : PyStr → List PyStr
  | [] => [[]]
  | c :: cs =>
    match splitTab cs with
    | [] => [[]]
    | h :: t => if c = '\t' then [] :: h :: t else (c :: h) :: t

/-- `" ".join(tokens)` — more generally, join with a separator. -/
def pyJoin (sep : PyStr) : List PyStr → PyStr
  | [] => []
  | [x] => x
  | x :: y :: rest => x ++ sep ++ pyJoin sep (y :: rest)

/-- `flatten_2d_list` from the source:
`[item for sublist in nested_list for item in sublist]`. -/
def flatten_2d_list {α : Type} : List (List α) → List α
  | [] => []
  | l :: ls => l ++ flatten_2d_list ls

/-! ### The directive strings of `ReliReader.__init__`

`title_string` reproduces the mojibake present in the source byte-for-byte:
the bytes of "Título" in UTF-8 re-decoded as Latin-1, i.e. `#T`, U+00C3,
U+00AD (soft hyphen), `tulo`. -/

def title_string : PyStr := pstr "#T\u00C3\u00ADtulo"

def body_string : PyStr := pstr "#Corpo"

def book_string : PyStr := pstr "#Livro"

def review_id_string : PyStr := pstr "#Resenha"

def score_string : PyStr := pstr "#Nota"

/-! ### Line classification predicates (source lines 36–49, 144–153) -/

/-- `must_skip_line`: `line.startswith("[")`. -/
def must_skip_line (line : PyStr) : Bool := pyStartsWith line (pstr "[")

/-- `is_metadata`: `line.startswith("#")`. -/
def is_metadata (line : PyStr) : Bool := pyStartsWith line (pstr "#")

/-- `is_separator_line`: `not line.strip()` — blank after stripping. -/
def is_separator_line (line : PyStr) : Bool := pyStrip line = []

def is_title (line : PyStr) : Bool := pyStartsWith line title_string

def is_body (line : PyStr) : Bool := pyStartsWith line body_string

def is_book (line : PyStr) : Bool := pyStartsWith line book_string

def is_review_id (line : PyStr) : Bool := pyStartsWith line review_id_string

def is_score (line : PyStr) : Bool := pyStartsWith line score_string

/-! ### Label aggregation (source lines 51–79) -/

/-- One step of the `for label in label_list` loop of `convert_labels`:
`if label.strip().endswith("+"): positive = True
elif label.strip().endswith("-"): negative = True`. -/
def convert_labels_step (pn : Bool × Bool) (label : PyStr) : Bool × Bool :=
  if pyEndsWith (pyStrip label) (pstr "+") then (true, pn.2)
  else if pyEndsWith (pyStrip label) (pstr "-") then (pn.1, true)
  else pn

/-- `convert_labels`: flatten the per-line label lists, scan for positive /
negative trailing-sign evidence, and return the four-way sentence label. -/
def convert_labels (labels : List (List PyStr)) : PyStr :=
  let label_list := flatten_2d_list labels
  let pn := label_list.foldl convert_labels_step (false, false)
  if pn.1 ∧ ¬ pn.2 then pstr "positive"
  else if pn.2 ∧ ¬ pn.1 then pstr "negative"
  else if pn.1 ∧ pn.2 then pstr "mixed"
  else pstr "neutral"

/-- `columns[0]` of `line.split("\t")` (the split is never empty). -/
def firstColumn (line : PyStr) : PyStr := (splitTab line).headD []

/-- `columns[1:]` of `line.split("\t")`. -/
def restColumns (line : PyStr) : List PyStr := (splitTab line).tail

/-- `convert_buffer`: space-join the first column of every buffered line and
aggregate the remaining columns' labels. -/
def convert_buffer (buffer : List PyStr) : PyStr × PyStr :=
  (pyJoin (pstr " ") (buffer.map firstColumn),
   convert_labels (buffer.map restColumns))

/-! ### Python `int(...)` / `float(...)` literal acceptance (ASCII) -/

/-- A digit span as accepted inside Python numeric literals: non-empty,
decimal digits with single underscores allowed strictly between digits. -/
def digitSpan : PyStr → Bool
  | [] => false
  | [c] => c.isDigit
  | c :: c2 :: rest =>
    c.isDigit &&
      (if c2 = '_' then
        (match rest with
         | [] => false
         | _ => digitSpan rest)
      else digitSpan (c2 :: rest))

/-- Numeric value of a digit span, ignoring underscores. -/
def digitsVal (l : PyStr) : Nat :=
  l.foldl (fun acc c => if c = '_' then acc else acc * 10 + (c.toNat - '0'.toNat)) 0

/-- `int(s)` after whitespace stripping: optional sign then a digit span. -/
def pyIntCore : PyStr → Option Int
  | '+' :: rest => if digitSpan rest then some (Int.ofNat (digitsVal rest)) else none
  | '-' :: rest => if digitSpan rest then some (-(Int.ofNat (digitsVal rest))) else none
  | rest => if digitSpan rest then some (Int.ofNat (digitsVal rest)) else none

/-- Python `int(s)` for ASCII decimal literals (Python itself strips
surrounding whitespace before parsing). -/
def pyInt (l : PyStr) : Option Int := pyIntCore (pyStrip l)

/-- Split a list at the first character satisfying `p`; return the part
before it and, if found, the part after it. -/
def breakAt (p : Char → Bool) : PyStr → PyStr × Option PyStr
  | [] => ([], none)
  | c :: cs =>
    if p c then ([], some cs)
    else
      match breakAt p cs with
      | (a, b) => (c :: a, b)

/-- Mantissa of a float literal: `digits [. [digits]]` or `. digits`. -/
def pyFloatMantissa (l : PyStr) : Bool :=
  match breakAt (fun c => c = '.') l with
  | (i, none) => digitSpan i
  | (i, some fr) =>
    (digitSpan i && (fr.isEmpty || digitSpan fr)) || (i.isEmpty && digitSpan fr)

/-- Mantissa with optional exponent part. -/
def pyFloatNumeric (l : PyStr) : Bool :=
  match breakAt (fun c => c = 'e' || c = 'E') l with
  | (m, none) => pyFloatMantissa m
  | (m, some ex) =>
    pyFloatMantissa m &&
      (match ex with
       | '+' :: d => digitSpan d
       | '-' :: d => digitSpan d
       | d => digitSpan d)

/-- Float literal body after the optional sign: `inf`, `infinity`, `nan`
(case-insensitive) or a numeric literal. -/
def pyFloatBody (l : PyStr) : Bool :=
  let low := l.map Char.toLower
  if low = pstr "inf" || low = pstr "infinity" || low = pstr "nan" then true
  else pyFloatNumeric l

/-- Acceptance of Python `float(s)` for ASCII literals.  Only acceptance is
modelled: a parsed score is represented by its accepted literal text, since
no claim depends on the IEEE value. -/
def pyFloatValid (s : PyStr) : Bool :=
  match pyStrip s with
  | '+' :: rest => pyFloatBody rest
  | '-' :: rest => pyFloatBody rest
  | rest => pyFloatBody rest

/-! ### Directive value extraction (source lines 134–142) -/

/-- The common pipeline of `get_book` / `get_review_id` / `get_score`:
`line.replace(directive, "").strip().strip("_")`. -/
def directive_value (directive : PyStr) (line : PyStr) : PyStr :=
  stripUnderscores (pyStrip (pyRemoveAll directive line))

/-- `get_book(line)`. -/
def get_book (line : PyStr) : PyStr := directive_value book_string line

/-- `get_review_id(line)`: `int(...)` may fail (uncaught `ValueError`),
hence the `Option`. -/
def get_review_id (line : PyStr) : Option Int :=
  pyInt (directive_value review_id_string line)

/-- `get_score(line)`: `float(...)` may fail; the accepted literal text
stands for the float value. -/
def get_score (line : PyStr) : Option PyStr :=
  let v := directive_value score_string line
  if pyFloatValid v then some v else none

/-- Python's `f"{x}"` for a string-or-None field: `None` prints as "None". -/
def formatOptStr : Option PyStr → PyStr
  | none => pstr "None"
  | some s => s

/-- Decimal representation of an integer, as Python prints it. -/
def intRepr : Int → PyStr
  | Int.ofNat n => Nat.toDigits 10 n
  | Int.negSucc n => '-' :: Nat.toDigits 10 (n + 1)

/-- Python's `f"{x}"` for an int-or-None field. -/
def formatOptInt : Option Int → PyStr
  | none => pstr "None"
  | some i => intRepr i

/-- `get_unique_review_id(source, book, review_id)`:
`f"{source[:-4]}_{book}_{review_id}"` — `source[:-4]` drops the last four
characters (the `.txt` suffix). -/
def get_unique_review_id (source : PyStr) (book : Option PyStr)
    (review_id : Option Int) : PyStr :=
  source.take (source.length - 4) ++ pstr "_" ++ formatOptStr book
    ++ pstr "_" ++ formatOptInt review_id

/-! ### The scan state (source lines 81–132) -/

/-- The `metadata_fields` dictionary.  All fields start as `None`
(`unique_review_id` is first inserted on the first non-skipped line).
The `score` field holds the accepted float literal text. -/
@[ext]
structure Metadata where
  source : Option PyStr := none
  title : Option Bool := none
  book : Option PyStr := none
  review_id : Option Int := none
  score : Option PyStr := none
  sentence_id : Option Nat := none
  unique_review_id : Option PyStr := none
deriving DecidableEq

/-- An input line: `(filename, text)`, as produced by `read_lines`. -/
abbrev Line := PyStr × PyStr

/-- An emitted record: the metadata snapshot at emission time together with
the flushed buffer.  Buffer entries keep their source filename as ghost
provenance; the yielded payload is `convert_buffer` of the texts alone. -/
abbrev Rec := Metadata × List Line

/-- The mutable state of the generator loop: the pending buffer,
`previous_filename`, and the metadata dictionary. -/
@[ext]
structure ScanState where
  buffer : List Line
  prev : Option PyStr
  meta : Metadata
deriving DecidableEq

/-- State at the top of `read_sentences`. -/
def initialState : ScanState := ⟨[], none, {}⟩

/-- The uncaught `ValueError` of `int(...)` / `float(...)` on a malformed
directive value, carrying the offending (stripped) value text. -/
inductive ScanError where
  | malformedInt (value : PyStr)
  | malformedFloat (value : PyStr)
deriving DecidableEq

/-- Source lines 98–101: if the filename changed and the buffer is
non-empty, yield the buffer with the current metadata and clear it. -/
def docChangeFlush (st : ScanState) (filename : PyStr) : List Rec × ScanState :=
  if st.prev ≠ none ∧ st.prev ≠ some filename then
    if st.buffer ≠ [] then
      ([(st.meta, st.buffer)], { st with buffer := [] })
    else ([], st)
  else ([], st)

/-- Source lines 106–108: per-line metadata refresh — `sentence_id := idx`,
`source := filename`, recompute `unique_review_id` from the (possibly
stale) `book` / `review_id`. -/
def refreshMeta (m : Metadata) (idx : Nat) (filename : PyStr) : Metadata :=
  { m with
    sentence_id := some idx
    source := some filename
    unique_review_id :=
      some (get_unique_review_id filename m.book m.review_id) }

/-- Source lines 110–121: the metadata directive dispatch chain.  An
unparseable review-id / score value raises (the error aborts the scan). -/
def applyMetadata (m : Metadata) (line : PyStr) : Except ScanError Metadata :=
  if is_title line then Except.ok { m with title := some true }
  else if is_body line then Except.ok { m with title := some false }
  else if is_book line then Except.ok { m with book := some (get_book line) }
  else if is_review_id line then
    match get_review_id line with
    | some n => Except.ok { m with review_id := some n }
    | none => Except.error (ScanError.malformedInt (directive_value review_id_string line))
  else if is_score line then
    match get_score line with
    | some v => Except.ok { m with score := some v }
    | none => Except.error (ScanError.malformedFloat (directive_value score_string line))
  else Except.ok m

/-- One iteration of the `for idx, (filename, line) in enumerate(...)` loop
(source lines 96–129): returns the records yielded during the iteration,
the state afterwards, and the error if this line raised. -/
def stepLine (idx : Nat) (st : ScanState) (fl : Line) :
    List Rec × ScanState × Option ScanError :=
  let flush := docChangeFlush st fl.1
  let out := flush.1
  let st1 := flush.2
  if must_skip_line fl.2 then (out, st1, none)
  else
    let m1 := refreshMeta st1.meta idx fl.1
    if is_metadata fl.2 then
      match applyMetadata m1 fl.2 with
      | Except.ok m2 => (out, { st1 with meta := m2 }, none)
      | Except.error e => (out, { st1 with meta := m1 }, some e)
    else if is_separator_line fl.2 then
      if st1.buffer ≠ [] then
        (out ++ [(m1, st1.buffer)],
         { st1 with buffer := [], prev := some fl.1, meta := m1 }, none)
      else (out, { st1 with prev := some fl.1, meta := m1 }, none)
    else
      (out, { st1 with buffer := st1.buffer ++ [fl], prev := some fl.1, meta := m1 },
       none)

/-- The generator loop over the remaining lines, starting at ordinal `idx`:
accumulates yielded records until exhaustion or the first raised error. -/
def scanAux (idx : Nat) (st : ScanState) :
    List Line → List Rec × ScanState × Option ScanError
  | [] => ([], st, none)
  | fl :: rest =>
    match stepLine idx st fl with
    | (out, st1, some e) => (out, st1, some e)
    | (out, st1, none) =>
      match scanAux (idx + 1) st1 rest with
      | (out2, st2, e2) => (out ++ out2, st2, e2)

/-- `read_sentences` on a line stream: run the loop from the initial state
and, on normal exhaustion, perform the final flush (source lines 131–132).
Records yielded before an error are kept, as the generator's consumer
received them before the exception propagated. -/
def read_sentences (lines : List Line) : List Rec × Option ScanError :=
  match scanAux 0 initialState lines with
  | (out, _, some e) => (out, some e)
  | (out, st, none) =>
    (out ++ (if st.buffer = [] then [] else [(st.meta, st.buffer)]), none)

/-- The metadata dictionary's state once the loop has stopped (the final
flush does not mutate it). -/
def finalMetadata (lines : List Line) : Metadata :=
  (scanAux 0 initialState lines).2.1.meta

/-- The sequence a consumer observes reading each yielded pair as it is
produced: the metadata snapshot at emission time with the converted
buffer. -/
def read_sentences_output (lines : List Line) :
    List (Metadata × (PyStr × PyStr)) × Option ScanError :=
  ((read_sentences lines).1.map
     (fun r => (r.1, convert_buffer (r.2.map Prod.snd))),
   (read_sentences lines).2)

/-- The records as observed by a consumer that retains them and reads their
fields only after the scan has finished.  The source yields the one
`metadata_fields` dict itself (lines 100, 125, 132) without copying, so
every retained record aliases it and shows its final state. -/
def read_sentences_retained (lines : List Line) :
    List (Metadata × (PyStr × PyStr)) :=
  (read_sentences lines).1.map
    (fun r => (finalMetadata lines, convert_buffer (r.2.map Prod.snd)))

/-! ### Reference definitions taken from the spec's words

These are *not* translations of the source; they restate what the spec
claims, to be compared against the source embedding above. -/

/-- Reference sentence count, following the spec's words: "the number of
maximal non-blank, non-skip, non-metadata line runs bounded by
(blank line | document change | stream end), excluding empty runs".
`last` is the document identifier of the previous stream line (a document
change is an adjacent pair of stream lines with different identifiers);
`inRun` records whether a non-empty run of content lines is open.  Skip and
metadata lines are transparent except that, like every line, they
participate in document-change detection.  The line classifications are the
source's own predicates — the classification itself is claim C5's concern,
not this count's. -/
def specRunCount (last : Option PyStr) (inRun : Bool) : List Line → Nat
  | [] => if inRun then 1 else 0
  | (f, t) :: rest =>
    let docChange : Bool := decide (last ≠ none ∧ last ≠ some f)
    let closed := inRun && docChange
    let stillOpen := inRun && !docChange
    if must_skip_line t || is_metadata t then
      (if closed then 1 else 0) + specRunCount (some f) stillOpen rest
    else if is_separator_line t then
      (if closed || stillOpen then 1 else 0) + specRunCount (some f) false rest
    else
      (if closed then 1 else 0) + specRunCount (some f) true rest

/-- Remove every skip-line from a stream (the transformation claim C3
quantifies over). -/
def removeSkips (lines : List Line) : List Line :=
  lines.filter (fun fl => !must_skip_line fl.2)

/-- Forget the `sentence_id` field of a metadata snapshot. -/
def eraseSid (m : Metadata) : Metadata := { m with sentence_id := none }

/-- Forget the `sentence_id` field of an emitted record. -/
def eraseSidRec (r : Rec) : Rec := (eraseSid r.1, r.2)

/-- Forget the `sentence_id` field of an output record. -/
def eraseSidOut (r : Metadata × (PyStr × PyStr)) : Metadata × (PyStr × PyStr) :=
  (eraseSid r.1, r.2)

/-- A stream where every skip line carries the same document identifier as
the most recent preceding blank-or-content line (the lines that update
`previous_filename`), if there is one.  This holds in particular whenever
skip lines occur only in the interior of a document's block of lines; it
rules out a skip line itself triggering the cross-document flush. -/
def skipsDocile (lastCB : Option PyStr) : List Line → Bool
  | [] => true
  | (f, t) :: rest =>
    if must_skip_line t then
      decide (lastCB = none ∨ lastCB = some f) && skipsDocile lastCB rest
    else if is_metadata t then skipsDocile lastCB rest
    else skipsDocile (some f) rest

/-- The label rule exactly as claim C8 words it: polarity from the raw
trailing character of each label string, with no stripping. -/
def specLabelByTrailingChar (labels : List (List PyStr)) : PyStr :=
  let label_list := flatten_2d_list labels
  let pos := label_list.any (fun l => pyEndsWith l (pstr "+"))
  let neg := label_list.any (fun l => pyEndsWith l (pstr "-"))
  if pos && !neg then pstr "positive"
  else if neg && !pos then pstr "negative"
  else if pos && neg then pstr "mixed"
  else pstr "neutral"

/-- The label rule with the source's stripping: polarity from the trailing
character of the whitespace-stripped label string. -/
def labelFromStrippedSuffixes (labels : List (List PyStr)) : PyStr :=
  let label_list := flatten_2d_list labels
  let pos := label_list.any (fun l => pyEndsWith (pyStrip l) (pstr "+"))
  let neg := label_list.any (fun l => pyEndsWith (pyStrip l) (pstr "-"))
  if pos && !neg then pstr "positive"
  else if neg && !pos then pstr "negative"
  else if pos && neg then pstr "mixed"
  else pstr "neutral"

/-! ### The `main` driver (source lines 155–185)

Only the parts claim C6 depends on are modelled: grouping rows by source
document (a `defaultdict(list)` in insertion order), the proportional
split, and `pandas.concat`, which raises
`ValueError("No objects to concatenate")` when given an empty list of
frames (documented pandas behaviour).  `int(n * 0.16)` / `int(n * 0.2)`
are modelled as `16 * n / 100` / `20 * n / 100`; at the inputs evaluated
here (`n = 0`) this agrees exactly with the float computation. -/

/-- An input file: its name and its list of lines. -/
abbrev InputFile := PyStr × List PyStr

/-- `read_lines`: the concatenated `(filename, line)` stream of the files,
in file order. -/
def read_lines (files : List InputFile) : List Line :=
  flatten_2d_list (files.map (fun fl => fl.2.map (fun t => (fl.1, t))))

/-- A row of the output table: the metadata fields plus sentence and label. -/
abbrev Row := Metadata × PyStr × PyStr

/-- Append a row under a key, preserving insertion order of keys. -/
def insertGrouped (groups : List (Option PyStr × List Row)) (key : Option PyStr)
    (row : Row) : List (Option PyStr × List Row) :=
  match groups with
  | [] => [(key, [row])]
  | (k, rs) :: rest =>
    if k = key then (k, rs ++ [row]) :: rest
    else (k, rs) :: insertGrouped rest key row

/-- `book_dict`: rows grouped by `fields["source"]`, keys in first-seen
order. -/
def groupBySource (recs : List (Metadata × (PyStr × PyStr))) :
    List (Option PyStr × List Row) :=
  recs.foldl (fun groups r => insertGrouped groups r.1.source (r.1, r.2)) []

/-- `book_dict[k]` lookup. -/
def dictGet (groups : List (Option PyStr × List Row)) (k : Option PyStr) :
    List Row :=
  match groups with
  | [] => []
  | (k2, rs) :: rest => if k2 = k then rs else dictGet rest k

/-- `pandas.concat`: raises `ValueError` on an empty list of frames. -/
def pd_concat (dfs : List (List Row)) : Except PyStr (List Row) :=
  if dfs = [] then Except.error (pstr "No objects to concatenate")
  else Except.ok (flatten_2d_list dfs)

/-- The ways `main` can raise: an uncaught scan error, or a `ValueError`
from pandas. -/
inductive MainError where
  | scanError (e : ScanError)
  | valueError (msg : PyStr)
deriving DecidableEq

/-- `main`: scan all files, group rows by source document, split the
documents into dev/test/train by position, and concatenate each group
(train first, as in the source). -/
def main_model (files : List InputFile) :
    Except MainError (List Row × List Row × List Row) :=
  match read_sentences_output (read_lines files) with
  | (_, some e) => Except.error (MainError.scanError e)
  | (recs, none) =>
    let book_dict := groupBySource recs
    let n := book_dict.length
    let dev_count := 16 * n / 100
    let test_count := 20 * n / 100
    let keys := book_dict.map Prod.fst
    let dev_books := keys.take dev_count
    let test_books := (keys.drop dev_count).take test_count
    let train_books := keys.drop (dev_count + test_count)
    match pd_concat (train_books.map (dictGet book_dict)) with
    | Except.error m => Except.error (MainError.valueError m)
    | Except.ok train_df =>
      match pd_concat (dev_books.map (dictGet book_dict)) with
      | Except.error m => Except.error (MainError.valueError m)
      | Except.ok dev_df =>
        match pd_concat (test_books.map (dictGet book_dict)) with
        | Except.error m => Except.error (MainError.valueError m)
        | Except.ok test_df => Except.ok (train_df, dev_df, test_df)

/-! ### Helper lemmas about the string primitives -/

theorem splitTab_ne_nil (l : PyStr) : splitTab l ≠ [] := by
  cases l with
  | nil => simp [splitTab]
  | cons c cs =>
    simp only [splitTab]
    cases h : splitTab cs with
    | nil => simp
    | cons h' t => by_cases hc : c = '\t' <;> simp [hc]

theorem splitTab_no_tab {l : PyStr} (h : '\t' ∉ l) : splitTab l = [l] := by
  induction l with
  | nil => rfl
  | cons c cs ih =>
    have hc : c ≠ '\t' := fun e => h (by simp [e])
    have hcs : '\t' ∉ cs := fun m => h (List.mem_cons_of_mem _ m)
    simp [splitTab, ih hcs, hc]

theorem firstColumn_no_tab {l : PyStr} (h : '\t' ∉ l) : firstColumn l = l := by
  simp [firstColumn, splitTab_no_tab h]

theorem restColumns_no_tab {l : PyStr} (h : '\t' ∉ l) : restColumns l = [] := by
  simp [restColumns, splitTab_no_tab h]

theorem flatten_2d_append {α : Type} (a b : List (List α)) :
    flatten_2d_list (a ++ b) = flatten_2d_list a ++ flatten_2d_list b := by
  induction a with
  | nil => rfl
  | cons x xs ih => simp [flatten_2d_list, ih]

/-- A string cannot end in both `+` and `-` (its last character decides). -/
theorem not_ends_plus_and_minus (s : PyStr) :
    ¬(pyEndsWith s (pstr "+") = true ∧ pyEndsWith s (pstr "-") = true) := by
  rintro ⟨h1, h2⟩
  have e1 : pstr "+" = ['+'] := rfl
  have e2 : pstr "-" = ['-'] := rfl
  rw [e1] at h1
  rw [e2] at h2
  unfold pyEndsWith List.isSuffixOf at h1 h2
  cases hr : s.reverse with
  | nil => rw [hr] at h1; simp [List.isPrefixOf] at h1
  | cons x xs =>
    rw [hr] at h1 h2
    simp [List.isPrefixOf] at h1 h2
    rw [← h1] at h2
    exact absurd h2 (by decide)

/-- The evidence fold of `convert_labels` computes, for each component, the
disjunction of the starting flag with "some label has that (stripped)
trailing sign". -/
theorem convert_labels_foldl (ll : List PyStr) : ∀ p q : Bool,
    ll.foldl convert_labels_step (p, q)
      = (p || ll.any (fun l => pyEndsWith (pyStrip l) (pstr "+")),
         q || ll.any (fun l => pyEndsWith (pyStrip l) (pstr "-"))) := by
  induction ll with
  | nil => intro p q; simp
  | cons x xs ih =>
    intro p q
    simp only [List.foldl_cons, List.any_cons]
    by_cases h1 : pyEndsWith (pyStrip x) (pstr "+") = true
    · have h2 : pyEndsWith (pyStrip x) (pstr "-") = false := by
        cases h2 : pyEndsWith (pyStrip x) (pstr "-") with
        | false => rfl
        | true => exact absurd ⟨h1, h2⟩ (not_ends_plus_and_minus _)
      rw [convert_labels_step, if_pos h1, ih]
      simp [h1, h2]
    · have h1f : pyEndsWith (pyStrip x) (pstr "+") = false := by
        cases h : pyEndsWith (pyStrip x) (pstr "+") with
        | false => rfl
        | true => exact absurd h h1
      by_cases h2 : pyEndsWith (pyStrip x) (pstr "-") = true
      · rw [convert_labels_step, if_neg h1, if_pos h2, ih]
        simp [h1f, h2]
      · have h2f : pyEndsWith (pyStrip x) (pstr "-") = false := by
          cases h : pyEndsWith (pyStrip x) (pstr "-") with
          | false => rfl
          | true => exact absurd h h2
        rw [convert_labels_step, if_neg h1, if_neg h2, ih]
        simp [h1f, h2f]

/-- `convert_labels` agrees everywhere with the stripped-suffix label rule. -/
theorem convert_labels_eq_stripped (labels : List (List PyStr)) :
    convert_labels labels = labelFromStrippedSuffixes labels := by
  unfold convert_labels labelFromStrippedSuffixes
  simp only [convert_labels_foldl, Bool.false_or]
  cases hp : (flatten_2d_list labels).any (fun l => pyEndsWith (pyStrip l) (pstr "+")) <;>
    cases hn : (flatten_2d_list labels).any (fun l => pyEndsWith (pyStrip l) (pstr "-")) <;>
      simp [hp, hn]

theorem flatten_2d_perm {α : Type} {l1 l2 : List (List α)} (h : l1.Perm l2) :
    (flatten_2d_list l1).Perm (flatten_2d_list l2) := by
  induction h with
  | nil => exact List.Perm.refl _
  | cons x _ ih => exact ih.append_left x
  | swap x y l =>
    simp only [flatten_2d_list]
    rw [← List.append_assoc, ← List.append_assoc]
    exact List.perm_append_comm.append_right _
  | trans _ _ ih1 ih2 => exact ih1.trans ih2

theorem perm_any_congr {α : Type} {l1 l2 : List α} (p : α → Bool)
    (h : l1.Perm l2) : l1.any p = l2.any p := by
  cases hb : l2.any p with
  | true =>
    obtain ⟨x, hx, hpx⟩ := List.any_eq_true.mp hb
    exact List.any_eq_true.mpr ⟨x, h.mem_iff.mpr hx, hpx⟩
  | false =>
    refine List.any_eq_false.mpr ?_
    intro x hx
    exact List.any_eq_false.mp hb x (h.mem_iff.mp hx)

/-! ### Claim C8 — label aggregation -/

/-- C8 counterexample: the label string "A+\n" (the last column of a line
keeps its newline) makes the buffer `positive` in the code, because
`convert_labels` strips the label before checking its trailing character;
the claim's literal trailing-character rule (the raw string ends in `\n`,
giving no evidence) yields `neutral` instead. -/
theorem convert_labels_ne_trailing_char_rule :
    convert_labels [[pstr "A+\n"]] = pstr "positive"
    ∧ specLabelByTrailingChar [[pstr "A+\n"]] = pstr "neutral"
    ∧ convert_labels [[pstr "A+\n"]] ≠ specLabelByTrailingChar [[pstr "A+\n"]] := by
  refine ⟨by decide, by decide, by decide⟩

/-- C8 (amended): the sentence label is the four-way decision
(positive-only → positive, negative-only → negative, both → mixed,
neither → neutral) over evidence read from the trailing character of each
*whitespace-stripped* label string, and the label is invariant under
reordering of the buffer's lines. -/
theorem convert_labels_stripped_rule_and_perm_invariant :
    (∀ labels : List (List PyStr),
      convert_labels labels = labelFromStrippedSuffixes labels)
    ∧ ∀ b1 b2 : List PyStr, b1.Perm b2 →
        (convert_buffer b1).2 = (convert_buffer b2).2 := by
  refine ⟨convert_labels_eq_stripped, ?_⟩
  intro b1 b2 h
  show convert_labels (b1.map restColumns) = convert_labels (b2.map restColumns)
  rw [convert_labels_eq_stripped, convert_labels_eq_stripped]
  simp only [labelFromStrippedSuffixes]
  have hperm := flatten_2d_perm (h.map restColumns)
  rw [perm_any_congr _ hperm, perm_any_congr _ hperm]

/-- C8 witness: the amended theorem applied to a concrete buffer and its
reversal (a token line with a `+` label and one with a `-` label: `mixed`
either way), and to a concrete label matrix. -/
theorem convert_labels_rule_witness :
    convert_labels [[pstr "B-POS+\n"], [pstr "O\n"]]
        = labelFromStrippedSuffixes [[pstr "B-POS+\n"], [pstr "O\n"]]
    ∧ (convert_buffer [pstr "a\tX+\n", pstr "b\tY-\n"]).2
        = (convert_buffer [pstr "b\tY-\n", pstr "a\tX+\n"]).2 :=
  ⟨convert_labels_stripped_rule_and_perm_invariant.1 [[pstr "B-POS+\n"], [pstr "O\n"]],
   convert_labels_stripped_rule_and_perm_invariant.2
     [pstr "a\tX+\n", pstr "b\tY-\n"] [pstr "b\tY-\n", pstr "a\tX+\n"] (by decide)⟩

/-! ### Claim C9 — lines with fewer than two tab-separated columns -/

/-- C9: a line with no tab contributes its sole column (the whole line) to
the sentence text and contributes no label evidence: the sentence label of
a buffer containing it equals the label of the buffer without it.  The
conversion is total by construction (`split` always yields at least one
column), modelling that the Python never raises on such lines. -/
theorem short_line_token_only (pre post : List PyStr) (l : PyStr)
    (h : '\t' ∉ l) :
    (convert_buffer (pre ++ l :: post)).1
      = pyJoin (pstr " ") (pre.map firstColumn ++ l :: post.map firstColumn)
    ∧ (convert_buffer (pre ++ l :: post)).2 = (convert_buffer (pre ++ post)).2 := by
  constructor
  · simp [convert_buffer, firstColumn_no_tab h]
  · show convert_labels ((pre ++ l :: post).map restColumns)
        = convert_labels ((pre ++ post).map restColumns)
    unfold convert_labels
    simp [flatten_2d_append, restColumns_no_tab h, flatten_2d_list]

/-- C9 witness: the theorem at a concrete two-column buffer around the
tab-free line "bare\n". -/
theorem short_line_token_only_witness :
    (convert_buffer [pstr "a\tX+\n", pstr "bare\n", pstr "b\tY\n"]).1
      = pyJoin (pstr " ")
          ([pstr "a\tX+\n"].map firstColumn ++ pstr "bare\n"
            :: [pstr "b\tY\n"].map firstColumn)
    ∧ (convert_buffer [pstr "a\tX+\n", pstr "bare\n", pstr "b\tY\n"]).2
      = (convert_buffer [pstr "a\tX+\n", pstr "b\tY\n"]).2 :=
  short_line_token_only [pstr "a\tX+\n"] [pstr "b\tY\n"] (pstr "bare\n") (by decide)

/-! ### Claim C10 — tab-free content lines keep their line terminator -/

/-- C10: for a line with no tab character, `columns[0]` is the whole raw
line, trailing newline included; consequently a sentence built from such
lines contains embedded newline characters, as the concrete two-line buffer
shows. -/
theorem token_keeps_line_terminator :
    (∀ l : PyStr, '\t' ∉ l → firstColumn l = l)
    ∧ (convert_buffer [pstr "ab\n", pstr "cd\n"]).1 = pstr "ab\n cd\n" := by
  exact ⟨fun l h => firstColumn_no_tab h, by decide⟩

/-- C10 witness: the theorem's first part applied to the concrete tab-free
line "xy\n". -/
theorem token_keeps_line_terminator_witness :
    firstColumn (pstr "xy\n") = pstr "xy\n" :=
  token_keeps_line_terminator.1 (pstr "xy\n") (by decide)

/-! ### Claim C5 — line classification -/

/-- The five directive kinds of the dispatch chain. -/
inductive MetaKind where
  | title
  | body
  | book
  | review_id
  | score
deriving DecidableEq

/-- The four-way line classification, with the directive kind for metadata
lines (`none` for a `#`-line matching no directive). -/
inductive LineClass where
  | skip
  | metadata (kind : Option MetaKind)
  | blank
  | content
deriving DecidableEq

/-- The directive kind of a metadata line, in the source's dispatch order
(lines 111–120); `none` when no directive string matches. -/
def metaKind (l : PyStr) : Option MetaKind :=
  if is_title l then some MetaKind.title
  else if is_body l then some MetaKind.body
  else if is_book l then some MetaKind.book
  else if is_review_id l then some MetaKind.review_id
  else if is_score l then some MetaKind.score
  else none

/-- The classification in the source's test order (lines 103, 110, 123):
skip, then metadata, then blank, else content. -/
def classify (l : PyStr) : LineClass :=
  if must_skip_line l then LineClass.skip
  else if is_metadata l then LineClass.metadata (metaKind l)
  else if is_separator_line l then LineClass.blank
  else LineClass.content

/-- C5 counterexample: the line "#Foo x\n" is non-blank, non-skip and
begins with none of the five directive strings, so the claim classifies it
as content and appends it to the buffer; the code classifies any line
beginning with `#` as metadata and discards it (no directive matches, the
buffer stays empty). -/
theorem undirected_hash_line_not_content :
    must_skip_line (pstr "#Foo x\n") = false
    ∧ is_separator_line (pstr "#Foo x\n") = false
    ∧ pyStartsWith (pstr "#Foo x\n") title_string = false
    ∧ pyStartsWith (pstr "#Foo x\n") body_string = false
    ∧ pyStartsWith (pstr "#Foo x\n") book_string = false
    ∧ pyStartsWith (pstr "#Foo x\n") review_id_string = false
    ∧ pyStartsWith (pstr "#Foo x\n") score_string = false
    ∧ classify (pstr "#Foo x\n") ≠ LineClass.content
    ∧ (stepLine 7 initialState (pstr "f.txt", pstr "#Foo x\n")).2.1.buffer = [] := by
  decide

/-- C5 (amended): every line gets exactly one classification, in the order
skip, metadata, blank, content; a line is metadata iff it begins with `#`
(its kind, when one of the five directive strings matches, is the first
match of the dispatch chain, `none` otherwise — such lines are ignored); a
non-blank, non-skip line that does not begin with `#` is content, and the
scanner appends exactly it to the buffer, emitting nothing beyond the
document-change flush. -/
theorem classification_partition_and_content_append :
    (∀ l : PyStr,
      (classify l = LineClass.content ↔
        must_skip_line l = false ∧ is_metadata l = false
          ∧ is_separator_line l = false)
      ∧ (is_metadata l = true → must_skip_line l = false →
          classify l = LineClass.metadata (metaKind l)))
    ∧ (∀ (l : PyStr) (idx : Nat) (st : ScanState) (f : PyStr),
        classify l = LineClass.content →
        (stepLine idx st (f, l)).2.1.buffer
            = (docChangeFlush st f).2.buffer ++ [(f, l)]
          ∧ (stepLine idx st (f, l)).1 = (docChangeFlush st f).1)
    ∧ (∀ (l : PyStr) (idx : Nat) (st : ScanState) (f : PyStr) (k : Option MetaKind),
        classify l = LineClass.metadata k →
        (stepLine idx st (f, l)).2.1.buffer = (docChangeFlush st f).2.buffer) := by
  refine ⟨?_, ?_, ?_⟩
  · intro l
    constructor
    · unfold classify
      by_cases h1 : must_skip_line l = true
      · simp [h1]
      · simp only [Bool.not_eq_true] at h1
        by_cases h2 : is_metadata l = true
        · simp [h1, h2]
        · simp only [Bool.not_eq_true] at h2
          by_cases h3 : is_separator_line l = true
          · simp [h1, h2, h3]
          · simp only [Bool.not_eq_true] at h3
            simp [h1, h2, h3]
    · intro hm hs
      unfold classify
      simp [hm, hs]
  · intro l idx st f hc
    unfold classify at hc
    by_cases h1 : must_skip_line l = true
    · simp [h1] at hc
    · by_cases h2 : is_metadata l = true
      · simp [h1, h2] at hc
      · by_cases h3 : is_separator_line l = true
        · simp [h1, h2, h3] at hc
        · simp only [Bool.not_eq_true] at h1 h2 h3
          unfold stepLine
          simp [h1, h2, h3]
  · intro l idx st f k hc
    unfold classify at hc
    by_cases h1 : must_skip_line l = true
    · simp [h1] at hc
    · by_cases h2 : is_metadata l = true
      · simp only [Bool.not_eq_true] at h1
        unfold stepLine
        simp only [h1, h2]
        cases happ : applyMetadata (refreshMeta (docChangeFlush st (f, l).1).2.meta idx (f, l).1) l with
        | ok m2 => simp [happ]
        | error e => simp [happ]
      · by_cases h3 : is_separator_line l = true
        · simp [h1, h2, h3] at hc
        · simp [h1, h2, h3] at hc

/-- C5 witness: the amended theorem at the concrete content line
"tok\tO\n" (appended to the empty buffer) and the ignored metadata line
"#Foo x\n" (buffer untouched). -/
theorem classification_partition_witness :
    classify (pstr "tok\tO\n") = LineClass.content
    ∧ (stepLine 0 initialState (pstr "f.txt", pstr "tok\tO\n")).2.1.buffer
        = (docChangeFlush initialState (pstr "f.txt")).2.buffer
            ++ [(pstr "f.txt", pstr "tok\tO\n")]
    ∧ (stepLine 3 initialState (pstr "f.txt", pstr "#Foo x\n")).2.1.buffer
        = (docChangeFlush initialState (pstr "f.txt")).2.buffer := by
  refine ⟨by decide, ?_, ?_⟩
  · exact (classification_partition_and_content_append.2.1 (pstr "tok\tO\n") 0
      initialState (pstr "f.txt") (by decide)).1
  · exact classification_partition_and_content_append.2.2 (pstr "#Foo x\n") 3
      initialState (pstr "f.txt") (metaKind (pstr "#Foo x\n")) (by decide)

/-! ### Claim C2 — the emitted records share the metadata snapshot -/

/-- C2 counterexample input: one sentence emitted at a blank line while
`score` is still unset, then a `#Nota` directive mutates the snapshot, then
a final sentence.  A consumer retaining the records sees `score = "5"` on
the first record too, because both records alias the one dict. -/
def exC2 : List Line :=
  [(pstr "f.txt", pstr "a\tX+\n"),
   (pstr "f.txt", pstr "\n"),
   (pstr "f.txt", pstr "#Nota _5_\n"),
   (pstr "f.txt", pstr "b\tY\n")]

/-- C2 counterexample: the records as observed by a retaining consumer
after the scan differ from the emission-time snapshots — a metadata
mutation after the first emission did retroactively alter the retained
record. -/
theorem retained_records_see_later_mutations :
    read_sentences_retained exC2 ≠ (read_sentences_output exC2).1
    ∧ (read_sentences_retained exC2).map (fun r => r.1.score)
        = [some (pstr "5"), some (pstr "5")]
    ∧ ((read_sentences_output exC2).1).map (fun r => r.1.score)
        = [none, some (pstr "5")] := by
  refine ⟨by decide, by decide, by decide⟩

/-- C2 (amended): each yielded record aliases the single mutable metadata
dict rather than carrying a copy (source yields `metadata_fields` itself);
a consumer that retains the records and reads their fields after the scan
observes the *final* snapshot in every record, while only the
`(sentence, label)` payload is fixed at emission time.  (The script's own
`main` is unaffected because it copies the fields of each record before
advancing the generator.) -/
theorem records_alias_final_snapshot (lines : List Line) :
    (∀ r ∈ read_sentences_retained lines, r.1 = finalMetadata lines)
    ∧ (read_sentences_retained lines).map Prod.snd
        = ((read_sentences_output lines).1).map Prod.snd := by
  constructor
  · intro r hr
    unfold read_sentences_retained at hr
    obtain ⟨x, _, rfl⟩ := List.mem_map.mp hr
    rfl
  · unfold read_sentences_retained read_sentences_output
    simp [List.map_map, Function.comp]

/-- C2 witness: the amended theorem applied to the concrete counterexample
input — every retained record shows the final snapshot. -/
theorem records_alias_final_snapshot_witness :
    (read_sentences_retained exC2).headD (finalMetadata exC2, ([], []))
      = (finalMetadata exC2,
         convert_buffer [pstr "a\tX+\n"]) := by
  have h := (records_alias_final_snapshot exC2).1
  have hmem : (read_sentences_retained exC2).headD (finalMetadata exC2, ([], []))
      ∈ read_sentences_retained exC2 := by decide
  have := h _ hmem
  decide

/-! ### Claim C6 — empty input file set -/

/-- C6: on an empty input file set the scan yields zero records and no
error, but `main` does *not* complete: with zero documents all three key
lists are empty and the first `pandas.concat` receives an empty list of
frames, raising `ValueError("No objects to concatenate")` — the code fails
where the claim requires it to succeed. -/
theorem empty_input_scan_empty_but_main_raises :
    read_sentences (read_lines []) = ([], none)
    ∧ read_sentences_output (read_lines []) = ([], none)
    ∧ main_model []
        = Except.error (MainError.valueError (pstr "No objects to concatenate")) := by
  refine ⟨by decide, by decide, by rfl⟩

/-! ### Composition of the scan over an append -/

/-- Continue a partial scan result with the scan of further lines starting
at ordinal `idx` (an error stops everything). -/
def scanSeq (r : List Rec × ScanState × Option ScanError) (idx : Nat)
    (post : List Line) : List Rec × ScanState × Option ScanError :=
  match r with
  | (out, st1, some e) => (out, st1, some e)
  | (out, st1, none) =>
    match scanAux idx st1 post with
    | (out2, st2, e2) => (out ++ out2, st2, e2)

theorem scanAux_append (pre : List Line) : ∀ (idx : Nat) (st : ScanState)
    (post : List Line),
    scanAux idx st (pre ++ post)
      = scanSeq (scanAux idx st pre) (idx + pre.length) post := by
  induction pre with
  | nil =>
    intro idx st post
    simp only [List.nil_append, scanAux, scanSeq, List.length_nil, Nat.add_zero]
  | cons fl pres ih =>
    intro idx st post
    have e1 : (fl :: pres) ++ post = fl :: (pres ++ post) := rfl
    rw [e1]
    simp only [scanAux]
    cases hs : stepLine idx st fl with
    | mk out r =>
      obtain ⟨st1, e⟩ := r
      cases e with
      | some err => simp [scanSeq]
      | none =>
        dsimp only
        rw [ih (idx + 1) st1 post]
        have harith : (idx + 1) + pres.length = idx + (fl :: pres).length := by
          simp only [List.length_cons]
          omega
        rw [harith]
        cases h1 : scanAux (idx + 1) st1 pres with
        | mk out1 r1 =>
          obtain ⟨st2, e2⟩ := r1
          cases e2 with
          | some err2 => simp [scanSeq]
          | none =>
            simp only [scanSeq]
            cases h2 : scanAux (idx + (fl :: pres).length) st2 post with
            | mk out2 r2 =>
              obtain ⟨st3, e3⟩ := r2
              simp [List.append_assoc]

/-! ### Claim C7 — malformed directive values abort the scan -/

theorem applyMetadata_review_error (m : Metadata) (l : PyStr)
    (ht : is_title l = false) (hb : is_body l = false) (hbk : is_book l = false)
    (hr : is_review_id l = true) (hp : get_review_id l = none) :
    applyMetadata m l
      = Except.error (ScanError.malformedInt (directive_value review_id_string l)) := by
  unfold applyMetadata
  simp [ht, hb, hbk, hr, hp]

theorem applyMetadata_score_error (m : Metadata) (l : PyStr)
    (ht : is_title l = false) (hb : is_body l = false) (hbk : is_book l = false)
    (hr : is_review_id l = false) (hs : is_score l = true) (hp : get_score l = none) :
    applyMetadata m l
      = Except.error (ScanError.malformedFloat (directive_value score_string l)) := by
  unfold applyMetadata
  simp [ht, hb, hbk, hr, hs, hp]

theorem stepLine_metadata_error (idx : Nat) (st : ScanState) (f l : PyStr)
    (e : ScanError)
    (hskip : must_skip_line l = false) (hmeta : is_metadata l = true)
    (happ : applyMetadata (refreshMeta (docChangeFlush st f).2.meta idx f) l
      = Except.error e) :
    stepLine idx st (f, l)
      = ((docChangeFlush st f).1,
         { (docChangeFlush st f).2 with
             meta := refreshMeta (docChangeFlush st f).2.meta idx f },
         some e) := by
  unfold stepLine
  simp [hskip, hmeta, happ]

/-- C7: if the stream reaches, without error, a directive line whose
stripped value fails to parse (`#Resenha` with a non-integer, or `#Nota`
with a non-float), the scan stops at that line with the malformed-directive
error: the result does not depend on the remaining lines, no default is
substituted, and the pending buffer is not emitted (the only record that
may accompany the error is the ordinary cross-document flush that precedes
any processing of the offending line). -/
theorem malformed_directive_aborts_scan :
    (∀ (pre : List Line) (f l : PyStr) (rest : List Line)
        (recs : List Rec) (st : ScanState),
      scanAux 0 initialState pre = (recs, st, none) →
      must_skip_line l = false → is_metadata l = true →
      is_title l = false → is_body l = false → is_book l = false →
      is_review_id l = true → get_review_id l = none →
      read_sentences (pre ++ (f, l) :: rest)
        = (recs ++ (docChangeFlush st f).1,
           some (ScanError.malformedInt (directive_value review_id_string l))))
    ∧ (∀ (pre : List Line) (f l : PyStr) (rest : List Line)
        (recs : List Rec) (st : ScanState),
      scanAux 0 initialState pre = (recs, st, none) →
      must_skip_line l = false → is_metadata l = true →
      is_title l = false → is_body l = false → is_book l = false →
      is_review_id l = false → is_score l = true → get_score l = none →
      read_sentences (pre ++ (f, l) :: rest)
        = (recs ++ (docChangeFlush st f).1,
           some (ScanError.malformedFloat (directive_value score_string l)))) := by
  constructor
  · intro pre f l rest recs st hpre hskip hmeta ht hb hbk hrid hparse
    unfold read_sentences
    rw [scanAux_append pre 0 initialState ((f, l) :: rest), hpre]
    simp only [scanSeq, scanAux]
    rw [stepLine_metadata_error (0 + pre.length) st f l _ hskip hmeta
      (applyMetadata_review_error _ l ht hb hbk hrid hparse)]
  · intro pre f l rest recs st hpre hskip hmeta ht hb hbk hrid hsc hparse
    unfold read_sentences
    rw [scanAux_append pre 0 initialState ((f, l) :: rest), hpre]
    simp only [scanSeq, scanAux]
    rw [stepLine_metadata_error (0 + pre.length) st f l _ hskip hmeta
      (applyMetadata_score_error _ l ht hb hbk hrid hsc hparse)]

/-- C7 witness: a malformed `#Resenha_zz_` after one emitted sentence and a
pending one, and a malformed `#Nota_x_`; in both cases the scan aborts with
the malformed value and the pending buffer is dropped. -/
theorem malformed_directive_aborts_scan_witness :
    read_sentences
        [(pstr "f.txt", pstr "a\tX+\n"), (pstr "f.txt", pstr "\n"),
         (pstr "f.txt", pstr "b\tY\n"), (pstr "f.txt", pstr "#Resenha_zz_\n"),
         (pstr "f.txt", pstr "c\tZ\n")]
      = ((scanAux 0 initialState
            [(pstr "f.txt", pstr "a\tX+\n"), (pstr "f.txt", pstr "\n"),
             (pstr "f.txt", pstr "b\tY\n")]).1
           ++ (docChangeFlush (scanAux 0 initialState
                 [(pstr "f.txt", pstr "a\tX+\n"), (pstr "f.txt", pstr "\n"),
                  (pstr "f.txt", pstr "b\tY\n")]).2.1 (pstr "f.txt")).1,
         some (ScanError.malformedInt (pstr "zz")))
    ∧ read_sentences [(pstr "g.txt", pstr "#Nota_x_\n")]
      = ([], some (ScanError.malformedFloat (pstr "x"))) := by
  constructor
  · have h := malformed_directive_aborts_scan.1
      [(pstr "f.txt", pstr "a\tX+\n"), (pstr "f.txt", pstr "\n"),
       (pstr "f.txt", pstr "b\tY\n")]
      (pstr "f.txt") (pstr "#Resenha_zz_\n") [(pstr "f.txt", pstr "c\tZ\n")]
      (scanAux 0 initialState
        [(pstr "f.txt", pstr "a\tX+\n"), (pstr "f.txt", pstr "\n"),
         (pstr "f.txt", pstr "b\tY\n")]).1
      (scanAux 0 initialState
        [(pstr "f.txt", pstr "a\tX+\n"), (pstr "f.txt", pstr "\n"),
         (pstr "f.txt", pstr "b\tY\n")]).2.1
      (by decide) (by decide) (by decide) (by decide) (by decide) (by decide)
      (by decide) (by decide)
    simp only [List.cons_append, List.nil_append] at h
    rw [h]
    have hv : directive_value review_id_string (pstr "#Resenha_zz_\n") = pstr "zz" := by
      decide
    rw [hv]
  · have h := malformed_directive_aborts_scan.2
      [] (pstr "g.txt") (pstr "#Nota_x_\n") []
      [] initialState
      (by decide) (by decide) (by decide) (by decide) (by decide) (by decide)
      (by decide) (by decide) (by decide)
    simp only [List.nil_append] at h
    rw [h]
    decide

/-! ### Equation lemmas for one scanner iteration -/

theorem docChangeFlush_eq (st : ScanState) (f : PyStr) :
    docChangeFlush st f
      = if st.prev ≠ none ∧ st.prev ≠ some f ∧ st.buffer ≠ []
        then ([(st.meta, st.buffer)], { st with buffer := [] })
        else ([], st) := by
  unfold docChangeFlush
  by_cases h1 : st.prev ≠ none ∧ st.prev ≠ some f
  · by_cases h2 : st.buffer ≠ [] <;> simp [h1, h2]
  · have : ¬(st.prev ≠ none ∧ st.prev ≠ some f ∧ st.buffer ≠ []) := by
      intro hc
      exact h1 ⟨hc.1, hc.2.1⟩
    simp [h1, this]

theorem stepLine_skip (idx : Nat) (st : ScanState) (f l : PyStr)
    (h1 : must_skip_line l = true) :
    stepLine idx st (f, l) = ((docChangeFlush st f).1, (docChangeFlush st f).2, none) := by
  unfold stepLine
  simp [h1]

theorem stepLine_metadata_ok (idx : Nat) (st : ScanState) (f l : PyStr)
    (m2 : Metadata) (h1 : must_skip_line l = false) (h2 : is_metadata l = true)
    (happ : applyMetadata (refreshMeta (docChangeFlush st f).2.meta idx f) l
      = Except.ok m2) :
    stepLine idx st (f, l)
      = ((docChangeFlush st f).1,
         { (docChangeFlush st f).2 with meta := m2 }, none) := by
  unfold stepLine
  simp [h1, h2, happ]

theorem stepLine_blank (idx : Nat) (st : ScanState) (f l : PyStr)
    (h1 : must_skip_line l = false) (h2 : is_metadata l = false)
    (h3 : is_separator_line l = true) :
    stepLine idx st (f, l)
      = ((docChangeFlush st f).1
           ++ (if (docChangeFlush st f).2.buffer = [] then []
               else [(refreshMeta (docChangeFlush st f).2.meta idx f,
                      (docChangeFlush st f).2.buffer)]),
         { buffer := [], prev := some f,
           meta := refreshMeta (docChangeFlush st f).2.meta idx f },
         none) := by
  unfold stepLine
  by_cases hb : (docChangeFlush st f).2.buffer = []
  · simp only [h1, h2, h3, hb]
    simp [hb, ScanState.ext_iff]
  · simp [h1, h2, h3, hb]

theorem stepLine_content (idx : Nat) (st : ScanState) (f l : PyStr)
    (h1 : must_skip_line l = false) (h2 : is_metadata l = false)
    (h3 : is_separator_line l = false) :
    stepLine idx st (f, l)
      = ((docChangeFlush st f).1,
         { buffer := (docChangeFlush st f).2.buffer ++ [(f, l)], prev := some f,
           meta := refreshMeta (docChangeFlush st f).2.meta idx f },
         none) := by
  unfold stepLine
  simp [h1, h2, h3]

/-! ### Claim C4 — document-change flush -/

theorem stepLine_out_on_doc_change (idx : Nat) (st : ScanState) (f l p : PyStr)
    (hb : st.buffer ≠ []) (hp : st.prev = some p) (hne : p ≠ f) :
    (stepLine idx st (f, l)).1 = [(st.meta, st.buffer)] := by
  have hflush : docChangeFlush st f = ([(st.meta, st.buffer)], { st with buffer := [] }) := by
    rw [docChangeFlush_eq, if_pos ⟨by simp [hp], by simp [hp, hne], hb⟩]
  cases hms : must_skip_line l with
  | true => rw [stepLine_skip idx st f l hms, hflush]
  | false =>
    cases hmd : is_metadata l with
    | true =>
      cases happ : applyMetadata (refreshMeta (docChangeFlush st f).2.meta idx f) l with
      | ok m2 => rw [stepLine_metadata_ok idx st f l m2 hms hmd happ, hflush]
      | error e => rw [stepLine_metadata_error idx st f l e hms hmd happ, hflush]
    | false =>
      cases hsep : is_separator_line l with
      | true =>
        rw [stepLine_blank idx st f l hms hmd hsep, hflush]
        simp
      | false => rw [stepLine_content idx st f l hms hmd hsep, hflush]

/-- All lines in the pending buffer come from the document recorded in
`previous_filename`. -/
def bufferUniform (st : ScanState) : Prop :=
  ∀ fl ∈ st.buffer, st.prev = some fl.1

theorem bufferUniform_pairwise {st : ScanState} (h : bufferUniform st) :
    ∀ a ∈ st.buffer, ∀ b ∈ st.buffer, a.1 = b.1 := by
  intro a ha b hb
  have ha' := h a ha
  have hb' := h b hb
  rw [ha'] at hb'
  exact Option.some_inj.mp hb'

/-- If the result of `docChangeFlush` still has a non-empty buffer, the
flush was a no-op and no document change was pending. -/
theorem docChangeFlush_nonempty (st : ScanState) (f : PyStr)
    (h : (docChangeFlush st f).2.buffer ≠ []) :
    (docChangeFlush st f).2 = st ∧ (st.prev = none ∨ st.prev = some f) := by
  rw [docChangeFlush_eq] at h ⊢
  by_cases hc : st.prev ≠ none ∧ st.prev ≠ some f ∧ st.buffer ≠ []
  · rw [if_pos hc] at h
    simp at h
  · rw [if_neg hc]
    refine ⟨rfl, ?_⟩
    rw [if_neg hc] at h
    by_cases hn : st.prev = none
    · exact Or.inl hn
    · right
      by_cases hf : st.prev = some f
      · exact hf
      · exact absurd ⟨hn, hf, h⟩ hc

theorem docChangeFlush_emitted_uniform (st : ScanState) (f : PyStr)
    (h : bufferUniform st) :
    (∀ r ∈ (docChangeFlush st f).1, ∀ a ∈ r.2, ∀ b ∈ r.2, a.1 = b.1)
    ∧ bufferUniform (docChangeFlush st f).2 := by
  rw [docChangeFlush_eq]
  by_cases hc : st.prev ≠ none ∧ st.prev ≠ some f ∧ st.buffer ≠ []
  · rw [if_pos hc]
    constructor
    · intro r hr a ha b hb
      simp only [List.mem_singleton] at hr
      subst hr
      exact bufferUniform_pairwise h a ha b hb
    · intro x hx
      simp at hx
  · rw [if_neg hc]
    exact ⟨fun r hr => absurd hr (by simp), h⟩

theorem stepLine_uniform (idx : Nat) (st : ScanState) (f l : PyStr)
    (h : bufferUniform st) :
    (∀ r ∈ (stepLine idx st (f, l)).1, ∀ a ∈ r.2, ∀ b ∈ r.2, a.1 = b.1)
    ∧ bufferUniform (stepLine idx st (f, l)).2.1 := by
  have hd := docChangeFlush_emitted_uniform st f h
  cases hms : must_skip_line l with
  | true => rw [stepLine_skip idx st f l hms]; exact hd
  | false =>
    cases hmd : is_metadata l with
    | true =>
      cases happ : applyMetadata (refreshMeta (docChangeFlush st f).2.meta idx f) l with
      | ok m2 =>
        rw [stepLine_metadata_ok idx st f l m2 hms hmd happ]
        exact ⟨hd.1, fun x hx => hd.2 x hx⟩
      | error e =>
        rw [stepLine_metadata_error idx st f l e hms hmd happ]
        exact ⟨hd.1, fun x hx => hd.2 x hx⟩
    | false =>
      cases hsep : is_separator_line l with
      | true =>
        rw [stepLine_blank idx st f l hms hmd hsep]
        constructor
        · intro r hr a ha b hb
          rw [List.mem_append] at hr
          cases hr with
          | inl hr => exact hd.1 r hr a ha b hb
          | inr hr =>
            by_cases hbuf : (docChangeFlush st f).2.buffer = []
            · rw [if_pos hbuf] at hr
              exact absurd hr (by simp)
            · rw [if_neg hbuf] at hr
              simp only [List.mem_singleton] at hr
              subst hr
              exact bufferUniform_pairwise hd.2 a ha b hb
        · intro x hx
          simp at hx
      | false =>
        rw [stepLine_content idx st f l hms hmd hsep]
        constructor
        · exact hd.1
        · intro x hx
          simp only at hx
          rw [List.mem_append] at hx
          cases hx with
          | inr hx =>
            simp only [List.mem_singleton] at hx
            subst hx
            rfl
          | inl hx =>
            have hne : (docChangeFlush st f).2.buffer ≠ [] := by
              intro he
              rw [he] at hx
              exact absurd hx (by simp)
            obtain ⟨heq, hcases⟩ := docChangeFlush_nonempty st f hne
            rw [heq] at hx
            have hx' := h x hx
            cases hcases with
            | inl hn => rw [hn] at hx'; exact absurd hx' (by simp)
            | inr hf =>
              rw [hf] at hx'
              show some f = some x.1
              exact hx'.symm ▸ hx'.symm

theorem scanAux_uniform : ∀ (lines : List Line) (idx : Nat) (st : ScanState),
    bufferUniform st →
    (∀ r ∈ (scanAux idx st lines).1, ∀ a ∈ r.2, ∀ b ∈ r.2, a.1 = b.1)
    ∧ bufferUniform (scanAux idx st lines).2.1 := by
  intro lines
  induction lines with
  | nil =>
    intro idx st h
    exact ⟨fun r hr => absurd hr (by simp [scanAux]), by simpa [scanAux] using h⟩
  | cons fl rest ih =>
    intro idx st h
    obtain ⟨f, l⟩ := fl
    have hstep := stepLine_uniform idx st f l h
    simp only [scanAux]
    cases hs : stepLine idx st (f, l) with
    | mk out r =>
      obtain ⟨st1, e⟩ := r
      rw [hs] at hstep
      cases e with
      | some err => exact hstep
      | none =>
        have hrest := ih (idx + 1) st1 hstep.2
        dsimp only
        constructor
        · intro r hr
          rw [List.mem_append] at hr
          cases hr with
          | inl hr => exact hstep.1 r hr
          | inr hr => exact hrest.1 r hr
        · exact hrest.2

/-- C4: (1) when the scan reaches, in a healthy state, a line of a document
different from `previous_filename` while the buffer is non-empty, the
emitted sequence continues with exactly the pending buffer paired with the
metadata snapshot as it stood *before* the new line — whatever that line
classifies as; (2) every emitted record's buffer lines all come from one
document. -/
theorem doc_change_flushes_before_new_line :
    (∀ (pre : List Line) (f l : PyStr) (rest : List Line)
        (recs : List Rec) (st : ScanState) (p : PyStr),
      scanAux 0 initialState pre = (recs, st, none) →
      st.buffer ≠ [] → st.prev = some p → p ≠ f →
      ∃ tail, (read_sentences (pre ++ (f, l) :: rest)).1
          = recs ++ (st.meta, st.buffer) :: tail)
    ∧ (∀ (lines : List Line), ∀ r ∈ (read_sentences lines).1,
        ∀ a ∈ r.2, ∀ b ∈ r.2, a.1 = b.1) := by
  constructor
  · intro pre f l rest recs st p hpre hb hp hne
    unfold read_sentences
    rw [scanAux_append pre 0 initialState ((f, l) :: rest), hpre]
    simp only [scanSeq, scanAux, Nat.zero_add]
    cases hs : stepLine pre.length st (f, l) with
    | mk out r =>
      obtain ⟨st1, e⟩ := r
      have hout : out = [(st.meta, st.buffer)] := by
        have h := stepLine_out_on_doc_change pre.length st f l p hb hp hne
        rw [hs] at h
        exact h
      subst hout
      cases e with
      | some err => exact ⟨[], by simp⟩
      | none =>
        dsimp only
        cases h2 : scanAux (pre.length + 1) st1 rest with
        | mk out2 r2 =>
          obtain ⟨st2, e2⟩ := r2
          cases e2 with
          | some err2 => exact ⟨out2, by simp⟩
          | none =>
            exact ⟨out2 ++ (if st2.buffer = [] then []
              else [(st2.meta, st2.buffer)]), by simp⟩
  · intro lines r hr a ha b hb
    have hinit : bufferUniform initialState := by
      intro x hx
      exact absurd hx (by simp [initialState])
    have h := scanAux_uniform lines 0 initialState hinit
    unfold read_sentences at hr
    cases hscan : scanAux 0 initialState lines with
    | mk out rr =>
      obtain ⟨st, e⟩ := rr
      rw [hscan] at hr h
      cases e with
      | some err => exact h.1 r hr a ha b hb
      | none =>
        simp only at hr
        rw [List.mem_append] at hr
        cases hr with
        | inl hr => exact h.1 r hr a ha b hb
        | inr hr =>
          by_cases hbuf : st.buffer = []
          · rw [if_pos hbuf] at hr
            exact absurd hr (by simp)
          · rw [if_neg hbuf] at hr
            simp only [List.mem_singleton] at hr
            subst hr
            exact bufferUniform_pairwise h.2 a ha b hb

/-- C4 witness: a pending sentence of `a.txt` is flushed, with its
pre-change metadata, as soon as the first line of `b.txt` arrives (here a
metadata line), and every record of the concrete run has single-document
buffers. -/
theorem doc_change_flushes_before_new_line_witness :
    (∃ tail,
      (read_sentences [(pstr "a.txt", pstr "t\tL+\n"),
                       (pstr "b.txt", pstr "#Corpo\n"),
                       (pstr "b.txt", pstr "u\tM\n")]).1
        = (scanAux 0 initialState [(pstr "a.txt", pstr "t\tL+\n")]).1
            ++ ((scanAux 0 initialState [(pstr "a.txt", pstr "t\tL+\n")]).2.1.meta,
                (scanAux 0 initialState [(pstr "a.txt", pstr "t\tL+\n")]).2.1.buffer)
              :: tail)
    ∧ ∀ a_1 ∈ ((read_sentences [(pstr "a.txt", pstr "t\tL+\n"),
          (pstr "b.txt", pstr "u\tM\n")]).1.headD ({}, [])).2,
        ∀ b_1 ∈ ((read_sentences [(pstr "a.txt", pstr "t\tL+\n"),
          (pstr "b.txt", pstr "u\tM\n")]).1.headD ({}, [])).2,
        a_1.1 = b_1.1 := by
  constructor
  · exact doc_change_flushes_before_new_line.1
      [(pstr "a.txt", pstr "t\tL+\n")] (pstr "b.txt") (pstr "#Corpo\n")
      [(pstr "b.txt", pstr "u\tM\n")]
      (scanAux 0 initialState [(pstr "a.txt", pstr "t\tL+\n")]).1
      (scanAux 0 initialState [(pstr "a.txt", pstr "t\tL+\n")]).2.1
      (pstr "a.txt") (by decide) (by decide) (by decide) (by decide)
  · intro a1 ha1 b1 hb1
    exact doc_change_flushes_before_new_line.2
      [(pstr "a.txt", pstr "t\tL+\n"), (pstr "b.txt", pstr "u\tM\n")]
      _ (by decide) a1 ha1 b1 hb1

/-! ### Claim C1 — record count equals the spec's run count -/

theorem scanAux_cons_none (idx : Nat) (st : ScanState) (fl : Line)
    (out : List Rec) (st1 : ScanState) (rest : List Line)
    (hs : stepLine idx st fl = (out, st1, none)) :
    scanAux idx st (fl :: rest)
      = (out ++ (scanAux (idx + 1) st1 rest).1,
         (scanAux (idx + 1) st1 rest).2.1, (scanAux (idx + 1) st1 rest).2.2) := by
  simp only [scanAux, hs]

theorem scanAux_cons_error (idx : Nat) (st : ScanState) (fl : Line)
    (out : List Rec) (st1 : ScanState) (e : ScanError) (rest : List Line)
    (hs : stepLine idx st fl = (out, st1, some e)) :
    scanAux idx st (fl :: rest) = (out, st1, some e) := by
  simp only [scanAux, hs]

theorem specRunCount_cons_transparent (last : Option PyStr) (inRun : Bool)
    (f t : PyStr) (rest : List Line)
    (h : (must_skip_line t || is_metadata t) = true) :
    specRunCount last inRun ((f, t) :: rest)
      = (if (inRun && decide (last ≠ none ∧ last ≠ some f)) = true then 1 else 0)
        + specRunCount (some f)
            (inRun && !decide (last ≠ none ∧ last ≠ some f)) rest := by
  simp only [specRunCount, h, if_true]

theorem specRunCount_cons_blank (last : Option PyStr) (inRun : Bool)
    (f t : PyStr) (rest : List Line)
    (h1 : (must_skip_line t || is_metadata t) = false)
    (h2 : is_separator_line t = true) :
    specRunCount last inRun ((f, t) :: rest)
      = (if inRun = true then 1 else 0) + specRunCount (some f) false rest := by
  simp only [specRunCount, h1, h2, if_true, Bool.false_eq_true, if_false]
  congr 1
  cases inRun with
  | false => simp
  | true =>
    cases hdc : decide (last ≠ none ∧ last ≠ some f) with
    | false => simp [hdc]
    | true => simp [hdc]

theorem specRunCount_cons_content (last : Option PyStr) (inRun : Bool)
    (f t : PyStr) (rest : List Line)
    (h1 : (must_skip_line t || is_metadata t) = false)
    (h2 : is_separator_line t = false) :
    specRunCount last inRun ((f, t) :: rest)
      = (if (inRun && decide (last ≠ none ∧ last ≠ some f)) = true then 1 else 0)
        + specRunCount (some f) true rest := by
  simp only [specRunCount, h1, h2, Bool.false_eq_true, if_false]

theorem scanAux_runCount : ∀ (lines : List Line) (idx : Nat) (st : ScanState)
    (last : Option PyStr) (inRun : Bool),
    (st.buffer = [] ↔ inRun = false) →
    (st.buffer ≠ [] → st.prev = last ∧ last ≠ none) →
    (scanAux idx st lines).2.2 = none →
    (scanAux idx st lines).1.length
      + (if (scanAux idx st lines).2.1.buffer = [] then 0 else 1)
      = specRunCount last inRun lines := by
  intro lines
  induction lines with
  | nil =>
    intro idx st last inRun h1 h2 herr
    simp only [scanAux, specRunCount, List.length_nil]
    cases inRun with
    | false =>
      have hb : st.buffer = [] := h1.mpr rfl
      simp [hb]
    | true =>
      have hb : st.buffer ≠ [] := by
        intro he
        exact absurd (h1.mp he) (by simp)
      simp [hb]
  | cons fl rest ih =>
    intro idx st last inRun h1 h2 herr
    obtain ⟨f, t⟩ := fl
    by_cases hcond : st.prev ≠ none ∧ st.prev ≠ some f ∧ st.buffer ≠ []
    · -- the document-change flush fires
      have hb : st.buffer ≠ [] := hcond.2.2
      have hrun : inRun = true := by
        cases hr : inRun with
        | true => rfl
        | false => exact absurd (h1.mpr hr) hb
      obtain ⟨hpl, hlnone⟩ := h2 hb
      have hdc : decide (last ≠ none ∧ last ≠ some f) = true := by
        rw [decide_eq_true_iff]
        exact ⟨hlnone, by rw [← hpl]; exact hcond.2.1⟩
      have hflush : docChangeFlush st f
          = ([(st.meta, st.buffer)], { st with buffer := [] }) := by
        rw [docChangeFlush_eq, if_pos hcond]
      cases hms : must_skip_line t with
      | true =>
        have hs : stepLine idx st (f, t)
            = ([(st.meta, st.buffer)], { st with buffer := [] }, none) := by
          rw [stepLine_skip idx st f t hms, hflush]
        have hscan := scanAux_cons_none idx st (f, t) _ _ rest hs
        have herr2 : (scanAux (idx + 1) { st with buffer := [] } rest).2.2 = none := by
          rw [hscan] at herr
          exact herr
        rw [hscan, specRunCount_cons_transparent last inRun f t rest (by simp [hms])]
        have hnext := ih (idx + 1) { st with buffer := [] } (some f) false
          (by simp) (by simp) herr2
        rw [hrun, hdc]
        simp only [Bool.true_and, Bool.not_true, Bool.and_false, if_true]
        rw [← hnext]
        simp only [List.length_append, List.length_singleton]
        omega
      | false =>
        cases hmd : is_metadata t with
        | true =>
          cases happ : applyMetadata
              (refreshMeta (docChangeFlush st f).2.meta idx f) t with
          | ok m2 =>
            have hs : stepLine idx st (f, t)
                = ([(st.meta, st.buffer)],
                   { buffer := [], prev := st.prev, meta := m2 }, none) := by
              rw [stepLine_metadata_ok idx st f t m2 hms hmd happ, hflush]
            have hscan := scanAux_cons_none idx st (f, t) _ _ rest hs
            have herr2 : (scanAux (idx + 1)
                { buffer := [], prev := st.prev, meta := m2 } rest).2.2 = none := by
              rw [hscan] at herr
              exact herr
            rw [hscan, specRunCount_cons_transparent last inRun f t rest (by simp [hmd])]
            have hnext := ih (idx + 1) { buffer := [], prev := st.prev, meta := m2 }
              (some f) false (by simp) (by simp) herr2
            rw [hrun, hdc]
            simp only [Bool.true_and, Bool.not_true, Bool.and_false, if_true]
            rw [← hnext]
            simp only [List.length_append, List.length_singleton]
            omega
          | error e =>
            have hs : stepLine idx st (f, t)
                = ([(st.meta, st.buffer)],
                   { buffer := [], prev := st.prev,
                     meta := refreshMeta (docChangeFlush st f).2.meta idx f },
                   some e) := by
              rw [stepLine_metadata_error idx st f t e hms hmd happ, hflush]
            rw [scanAux_cons_error idx st (f, t) _ _ e rest hs] at herr
            exact absurd herr (by simp)
        | false =>
          cases hsep : is_separator_line t with
          | true =>
            have hs : stepLine idx st (f, t)
                = ([(st.meta, st.buffer)],
                   { buffer := [], prev := some f,
                     meta := refreshMeta (docChangeFlush st f).2.meta idx f },
                   none) := by
              rw [stepLine_blank idx st f t hms hmd hsep, hflush]
              simp
            have hscan := scanAux_cons_none idx st (f, t) _ _ rest hs
            have herr2 : (scanAux (idx + 1)
                { buffer := [], prev := some f,
                  meta := refreshMeta (docChangeFlush st f).2.meta idx f }
                rest).2.2 = none := by
              rw [hscan] at herr
              exact herr
            rw [hscan, specRunCount_cons_blank last inRun f t rest
              (by simp [hms, hmd]) hsep]
            have hnext := ih (idx + 1)
              { buffer := [], prev := some f,
                meta := refreshMeta (docChangeFlush st f).2.meta idx f }
              (some f) false (by simp) (by simp) herr2
            rw [hrun]
            simp only [if_true]
            rw [← hnext]
            simp only [List.length_append, List.length_singleton]
            omega
          | false =>
            have hs : stepLine idx st (f, t)
                = ([(st.meta, st.buffer)],
                   { buffer := [(f, t)], prev := some f,
                     meta := refreshMeta (docChangeFlush st f).2.meta idx f },
                   none) := by
              rw [stepLine_content idx st f t hms hmd hsep, hflush]
              rfl
            have hscan := scanAux_cons_none idx st (f, t) _ _ rest hs
            have herr2 : (scanAux (idx + 1)
                { buffer := [(f, t)], prev := some f,
                  meta := refreshMeta (docChangeFlush st f).2.meta idx f }
                rest).2.2 = none := by
              rw [hscan] at herr
              exact herr
            rw [hscan, specRunCount_cons_content last inRun f t rest
              (by simp [hms, hmd]) hsep]
            have hnext := ih (idx + 1)
              { buffer := [(f, t)], prev := some f,
                meta := refreshMeta (docChangeFlush st f).2.meta idx f }
              (some f) true (by simp) (by simp) herr2
            rw [hrun, hdc]
            simp only [Bool.true_and, if_true]
            rw [← hnext]
            simp only [List.length_append, List.length_singleton]
            omega
    · -- no flush
      have hflush : docChangeFlush st f = ([], st) := by
        rw [docChangeFlush_eq, if_neg hcond]
      have hprevf : st.buffer ≠ [] → st.prev = some f := by
        intro hb
        obtain ⟨hpl, hlnone⟩ := h2 hb
        by_cases hn : st.prev = none
        · rw [hpl] at hn
          exact absurd hn hlnone
        · by_cases hf : st.prev = some f
          · exact hf
          · exact absurd ⟨hn, hf, hb⟩ hcond
      have hclosed : (inRun && decide (last ≠ none ∧ last ≠ some f)) = false := by
        cases hr : inRun with
        | false => simp
        | true =>
          have hb : st.buffer ≠ [] := by
            intro he
            exact absurd (h1.mp he) (by simp [hr])
          have hlf : last = some f := by
            rw [← (h2 hb).1]
            exact hprevf hb
          simp [hlf]
      have hstill : (inRun && !decide (last ≠ none ∧ last ≠ some f)) = inRun := by
        cases hr : inRun with
        | false => simp
        | true =>
          have hb : st.buffer ≠ [] := by
            intro he
            exact absurd (h1.mp he) (by simp [hr])
          have hlf : last = some f := by
            rw [← (h2 hb).1]
            exact hprevf hb
          simp [hlf]
      have hinv2 : st.buffer ≠ [] → st.prev = some f ∧ (some f : Option PyStr) ≠ none := by
        intro hb
        exact ⟨hprevf hb, by simp⟩
      cases hms : must_skip_line t with
      | true =>
        have hs : stepLine idx st (f, t) = ([], st, none) := by
          rw [stepLine_skip idx st f t hms, hflush]
        have hscan := scanAux_cons_none idx st (f, t) _ _ rest hs
        have herr2 : (scanAux (idx + 1) st rest).2.2 = none := by
          rw [hscan] at herr
          exact herr
        rw [hscan, specRunCount_cons_transparent last inRun f t rest (by simp [hms])]
        have hnext := ih (idx + 1) st (some f) inRun h1 hinv2 herr2
        rw [hclosed, hstill]
        simp only [Bool.false_eq_true, if_false]
        rw [← hnext]
        simp
      | false =>
        cases hmd : is_metadata t with
        | true =>
          cases happ : applyMetadata
              (refreshMeta (docChangeFlush st f).2.meta idx f) t with
          | ok m2 =>
            have hs : stepLine idx st (f, t)
                = ([],
                   { buffer := st.buffer, prev := st.prev, meta := m2 }, none) := by
              rw [stepLine_metadata_ok idx st f t m2 hms hmd happ, hflush]
            have hscan := scanAux_cons_none idx st (f, t) _ _ rest hs
            have herr2 : (scanAux (idx + 1)
                { buffer := st.buffer, prev := st.prev, meta := m2 } rest).2.2 = none := by
              rw [hscan] at herr
              exact herr
            rw [hscan, specRunCount_cons_transparent last inRun f t rest (by simp [hmd])]
            have hnext := ih (idx + 1)
              { buffer := st.buffer, prev := st.prev, meta := m2 }
              (some f) inRun h1 hinv2 herr2
            rw [hclosed, hstill]
            simp only [Bool.false_eq_true, if_false]
            rw [← hnext]
            simp
          | error e =>
            have hs : stepLine idx st (f, t)
                = ([],
                   { buffer := st.buffer, prev := st.prev,
                     meta := refreshMeta (docChangeFlush st f).2.meta idx f },
                   some e) := by
              rw [stepLine_metadata_error idx st f t e hms hmd happ, hflush]
            rw [scanAux_cons_error idx st (f, t) _ _ e rest hs] at herr
            exact absurd herr (by simp)
        | false =>
          cases hsep : is_separator_line t with
          | true =>
            have hs : stepLine idx st (f, t)
                = ((if st.buffer = [] then []
                    else [(refreshMeta (docChangeFlush st f).2.meta idx f, st.buffer)]),
                   { buffer := [], prev := some f,
                     meta := refreshMeta (docChangeFlush st f).2.meta idx f },
                   none) := by
              rw [stepLine_blank idx st f t hms hmd hsep, hflush]
              rfl
            have hscan := scanAux_cons_none idx st (f, t) _ _ rest hs
            have herr2 : (scanAux (idx + 1)
                { buffer := [], prev := some f,
                  meta := refreshMeta (docChangeFlush st f).2.meta idx f }
                rest).2.2 = none := by
              rw [hscan] at herr
              exact herr
            rw [hscan, specRunCount_cons_blank last inRun f t rest
              (by simp [hms, hmd]) hsep]
            have hnext := ih (idx + 1)
              { buffer := [], prev := some f,
                meta := refreshMeta (docChangeFlush st f).2.meta idx f }
              (some f) false (by simp) (by simp) herr2
            rw [← hnext]
            cases hbe : st.buffer with
            | nil =>
              have hr : inRun = false := h1.mp hbe
              rw [hr]
              simp
            | cons x xs =>
              have hr : inRun = true := by
                cases hri : inRun with
                | true => rfl
                | false =>
                  have := h1.mpr hri
                  rw [hbe] at this
                  exact absurd this (by simp)
              rw [hr]
              simp
              omega
          | false =>
            have hs : stepLine idx st (f, t)
                = ([],
                   { buffer := st.buffer ++ [(f, t)], prev := some f,
                     meta := refreshMeta (docChangeFlush st f).2.meta idx f },
                   none) := by
              rw [stepLine_content idx st f t hms hmd hsep, hflush]
            have hscan := scanAux_cons_none idx st (f, t) _ _ rest hs
            have herr2 : (scanAux (idx + 1)
                { buffer := st.buffer ++ [(f, t)], prev := some f,
                  meta := refreshMeta (docChangeFlush st f).2.meta idx f }
                rest).2.2 = none := by
              rw [hscan] at herr
              exact herr
            rw [hscan, specRunCount_cons_content last inRun f t rest
              (by simp [hms, hmd]) hsep]
            have hnext := ih (idx + 1)
              { buffer := st.buffer ++ [(f, t)], prev := some f,
                meta := refreshMeta (docChangeFlush st f).2.meta idx f }
              (some f) true (by simp) (by simp) herr2
            rw [hclosed]
            simp only [Bool.false_eq_true, if_false]
            rw [← hnext]
            simp

theorem docChangeFlush_recs_nonempty (st : ScanState) (f : PyStr) :
    ∀ r ∈ (docChangeFlush st f).1, r.2 ≠ [] := by
  rw [docChangeFlush_eq]
  by_cases hc : st.prev ≠ none ∧ st.prev ≠ some f ∧ st.buffer ≠ []
  · rw [if_pos hc]
    intro r hr
    simp only [List.mem_singleton] at hr
    subst hr
    exact hc.2.2
  · rw [if_neg hc]
    intro r hr
    exact absurd hr (by simp)

theorem stepLine_recs_nonempty (idx : Nat) (st : ScanState) (f l : PyStr) :
    ∀ r ∈ (stepLine idx st (f, l)).1, r.2 ≠ [] := by
  have hd := docChangeFlush_recs_nonempty st f
  cases hms : must_skip_line l with
  | true => rw [stepLine_skip idx st f l hms]; exact hd
  | false =>
    cases hmd : is_metadata l with
    | true =>
      cases happ : applyMetadata (refreshMeta (docChangeFlush st f).2.meta idx f) l with
      | ok m2 => rw [stepLine_metadata_ok idx st f l m2 hms hmd happ]; exact hd
      | error e => rw [stepLine_metadata_error idx st f l e hms hmd happ]; exact hd
    | false =>
      cases hsep : is_separator_line l with
      | true =>
        rw [stepLine_blank idx st f l hms hmd hsep]
        intro r hr
        rw [List.mem_append] at hr
        cases hr with
        | inl hr => exact hd r hr
        | inr hr =>
          by_cases hbuf : (docChangeFlush st f).2.buffer = []
          · rw [if_pos hbuf] at hr
            exact absurd hr (by simp)
          · rw [if_neg hbuf] at hr
            simp only [List.mem_singleton] at hr
            subst hr
            exact hbuf
      | false =>
        rw [stepLine_content idx st f l hms hmd hsep]
        exact hd

theorem scanAux_recs_nonempty : ∀ (lines : List Line) (idx : Nat) (st : ScanState),
    ∀ r ∈ (scanAux idx st lines).1, r.2 ≠ [] := by
  intro lines
  induction lines with
  | nil =>
    intro idx st r hr
    exact absurd hr (by simp [scanAux])
  | cons fl rest ih =>
    intro idx st r hr
    obtain ⟨f, l⟩ := fl
    simp only [scanAux] at hr
    cases hs : stepLine idx st (f, l) with
    | mk out rr =>
      obtain ⟨st1, e⟩ := rr
      rw [hs] at hr
      cases e with
      | some err =>
        have := stepLine_recs_nonempty idx st f l
        rw [hs] at this
        exact this r hr
      | none =>
        simp only at hr
        rw [List.mem_append] at hr
        cases hr with
        | inl hr =>
          have := stepLine_recs_nonempty idx st f l
          rw [hs] at this
          exact this r hr
        | inr hr => exact ih (idx + 1) st1 r hr

/-- C1: on every line stream the scan accepts, the number of emitted
records equals the spec's count of maximal non-empty runs of content lines
bounded by blank lines, document changes and the stream end — and every
emitted record comes from a non-empty buffer (no empty-sentence records). -/
theorem record_count_eq_run_count (lines : List Line)
    (herr : (read_sentences lines).2 = none) :
    (read_sentences lines).1.length = specRunCount none false lines
    ∧ ∀ r ∈ (read_sentences lines).1, r.2 ≠ [] := by
  have hscanerr : (scanAux 0 initialState lines).2.2 = none := by
    unfold read_sentences at herr
    cases hscan : scanAux 0 initialState lines with
    | mk out rr =>
      obtain ⟨st, e⟩ := rr
      rw [hscan] at herr
      cases e with
      | some err => exact absurd herr (by simp)
      | none => rfl
  have hcount := scanAux_runCount lines 0 initialState none false
    (by simp [initialState]) (by simp [initialState]) hscanerr
  constructor
  · unfold read_sentences
    cases hscan : scanAux 0 initialState lines with
    | mk out rr =>
      obtain ⟨st, e⟩ := rr
      rw [hscan] at hcount hscanerr
      cases e with
      | some err => exact absurd hscanerr (by simp)
      | none =>
        simp only [List.length_append] at hcount ⊢
        rw [← hcount]
        by_cases hbuf : st.buffer = [] <;> simp [hbuf]
  · intro r hr
    unfold read_sentences at hr
    cases hscan : scanAux 0 initialState lines with
    | mk out rr =>
      obtain ⟨st, e⟩ := rr
      rw [hscan] at hr
      have hout := scanAux_recs_nonempty lines 0 initialState
      rw [hscan] at hout
      cases e with
      | some err => exact hout r hr
      | none =>
        simp only at hr
        rw [List.mem_append] at hr
        cases hr with
        | inl hr => exact hout r hr
        | inr hr =>
          by_cases hbuf : st.buffer = []
          · rw [if_pos hbuf] at hr
            exact absurd hr (by simp)
          · rw [if_neg hbuf] at hr
            simp only [List.mem_singleton] at hr
            subst hr
            exact hbuf

/-- C1 witness: a stream with three runs (one closed by a blank line, one
by a document change, one by the stream end, with a metadata line and a
skip line interleaved) has exactly three records, none empty. -/
theorem record_count_eq_run_count_witness :
    (read_sentences
        [(pstr "a.txt", pstr "a\tX+\n"), (pstr "a.txt", pstr "\n"),
         (pstr "a.txt", pstr "#Corpo\n"), (pstr "a.txt", pstr "b\tY\n"),
         (pstr "a.txt", pstr "[s]\n"), (pstr "a.txt", pstr "c\tZ\n"),
         (pstr "b.txt", pstr "d\tW\n")]).1.length
      = specRunCount none false
          [(pstr "a.txt", pstr "a\tX+\n"), (pstr "a.txt", pstr "\n"),
           (pstr "a.txt", pstr "#Corpo\n"), (pstr "a.txt", pstr "b\tY\n"),
           (pstr "a.txt", pstr "[s]\n"), (pstr "a.txt", pstr "c\tZ\n"),
           (pstr "b.txt", pstr "d\tW\n")]
    ∧ ∀ r ∈ (read_sentences
        [(pstr "a.txt", pstr "a\tX+\n"), (pstr "a.txt", pstr "\n"),
         (pstr "a.txt", pstr "#Corpo\n"), (pstr "a.txt", pstr "b\tY\n"),
         (pstr "a.txt", pstr "[s]\n"), (pstr "a.txt", pstr "c\tZ\n"),
         (pstr "b.txt", pstr "d\tW\n")]).1, r.2 ≠ [] :=
  record_count_eq_run_count
    [(pstr "a.txt", pstr "a\tX+\n"), (pstr "a.txt", pstr "\n"),
     (pstr "a.txt", pstr "#Corpo\n"), (pstr "a.txt", pstr "b\tY\n"),
     (pstr "a.txt", pstr "[s]\n"), (pstr "a.txt", pstr "c\tZ\n"),
     (pstr "b.txt", pstr "d\tW\n")] (by decide)

/-! ### Claim C3 — removing skip-lines -/

theorem docChangeFlush_prev (st : ScanState) (f : PyStr) :
    (docChangeFlush st f).2.prev = st.prev := by
  rw [docChangeFlush_eq]
  by_cases h : st.prev ≠ none ∧ st.prev ≠ some f ∧ st.buffer ≠ [] <;> simp [h]

theorem docChangeFlush_meta (st : ScanState) (f : PyStr) :
    (docChangeFlush st f).2.meta = st.meta := by
  rw [docChangeFlush_eq]
  by_cases h : st.prev ≠ none ∧ st.prev ≠ some f ∧ st.buffer ≠ [] <;> simp [h]

theorem eraseSid_fields {m1 m2 : Metadata} (h : eraseSid m1 = eraseSid m2) :
    m1.source = m2.source ∧ m1.title = m2.title ∧ m1.book = m2.book
    ∧ m1.review_id = m2.review_id ∧ m1.score = m2.score
    ∧ m1.unique_review_id = m2.unique_review_id := by
  refine ⟨?_, ?_, ?_, ?_, ?_, ?_⟩
  · have t := congrArg Metadata.source h
    exact t
  · have t := congrArg Metadata.title h
    exact t
  · have t := congrArg Metadata.book h
    exact t
  · have t := congrArg Metadata.review_id h
    exact t
  · have t := congrArg Metadata.score h
    exact t
  · have t := congrArg Metadata.unique_review_id h
    exact t

theorem eraseSid_ext {m1 m2 : Metadata}
    (hsrc : m1.source = m2.source) (ht : m1.title = m2.title)
    (hbk : m1.book = m2.book) (hrid : m1.review_id = m2.review_id)
    (hsc : m1.score = m2.score)
    (huniq : m1.unique_review_id = m2.unique_review_id) :
    eraseSid m1 = eraseSid m2 := by
  unfold eraseSid
  exact Metadata.ext hsrc ht hbk hrid hsc rfl huniq

theorem refreshMeta_eraseSid {m1 m2 : Metadata} (h : eraseSid m1 = eraseSid m2)
    (idx1 idx2 : Nat) (f : PyStr) :
    eraseSid (refreshMeta m1 idx1 f) = eraseSid (refreshMeta m2 idx2 f) := by
  obtain ⟨hsrc, ht, hbk, hrid, hsc, huniq⟩ := eraseSid_fields h
  unfold refreshMeta
  exact eraseSid_ext rfl ht hbk hrid hsc (by rw [hbk, hrid])

theorem applyMetadata_title (m : Metadata) (l : PyStr) (h1 : is_title l = true) :
    applyMetadata m l = Except.ok { m with title := some true } := by
  unfold applyMetadata
  rw [if_pos h1]

theorem applyMetadata_body (m : Metadata) (l : PyStr)
    (h1 : is_title l = false) (h2 : is_body l = true) :
    applyMetadata m l = Except.ok { m with title := some false } := by
  unfold applyMetadata
  rw [if_neg (by simp [h1]), if_pos h2]

theorem applyMetadata_book (m : Metadata) (l : PyStr)
    (h1 : is_title l = false) (h2 : is_body l = false) (h3 : is_book l = true) :
    applyMetadata m l = Except.ok { m with book := some (get_book l) } := by
  unfold applyMetadata
  rw [if_neg (by simp [h1]), if_neg (by simp [h2]), if_pos h3]

theorem applyMetadata_review (m : Metadata) (l : PyStr)
    (h1 : is_title l = false) (h2 : is_body l = false) (h3 : is_book l = false)
    (h4 : is_review_id l = true) :
    applyMetadata m l
      = (match get_review_id l with
         | some n => Except.ok { m with review_id := some n }
         | none => Except.error
             (ScanError.malformedInt (directive_value review_id_string l))) := by
  unfold applyMetadata
  rw [if_neg (by simp [h1]), if_neg (by simp [h2]), if_neg (by simp [h3]), if_pos h4]

theorem applyMetadata_scoreCase (m : Metadata) (l : PyStr)
    (h1 : is_title l = false) (h2 : is_body l = false) (h3 : is_book l = false)
    (h4 : is_review_id l = false) (h5 : is_score l = true) :
    applyMetadata m l
      = (match get_score l with
         | some v => Except.ok { m with score := some v }
         | none => Except.error
             (ScanError.malformedFloat (directive_value score_string l))) := by
  unfold applyMetadata
  rw [if_neg (by simp [h1]), if_neg (by simp [h2]), if_neg (by simp [h3]),
    if_neg (by simp [h4]), if_pos h5]

theorem applyMetadata_other (m : Metadata) (l : PyStr)
    (h1 : is_title l = false) (h2 : is_body l = false) (h3 : is_book l = false)
    (h4 : is_review_id l = false) (h5 : is_score l = false) :
    applyMetadata m l = Except.ok m := by
  unfold applyMetadata
  rw [if_neg (by simp [h1]), if_neg (by simp [h2]), if_neg (by simp [h3]),
    if_neg (by simp [h4]), if_neg (by simp [h5])]

theorem applyMetadata_eraseSid {m1 m2 : Metadata} (h : eraseSid m1 = eraseSid m2)
    (l : PyStr) :
    (∃ r1 r2, applyMetadata m1 l = Except.ok r1 ∧ applyMetadata m2 l = Except.ok r2
        ∧ eraseSid r1 = eraseSid r2)
    ∨ (∃ e, applyMetadata m1 l = Except.error e ∧ applyMetadata m2 l = Except.error e) := by
  obtain ⟨hsrc, ht, hbk, hrid, hsc, huniq⟩ := eraseSid_fields h
  cases h1 : is_title l with
  | true =>
    left
    exact ⟨_, _, applyMetadata_title m1 l h1, applyMetadata_title m2 l h1,
      eraseSid_ext hsrc rfl hbk hrid hsc huniq⟩
  | false =>
    cases h2 : is_body l with
    | true =>
      left
      exact ⟨_, _, applyMetadata_body m1 l h1 h2, applyMetadata_body m2 l h1 h2,
        eraseSid_ext hsrc rfl hbk hrid hsc huniq⟩
    | false =>
      cases h3 : is_book l with
      | true =>
        left
        exact ⟨_, _, applyMetadata_book m1 l h1 h2 h3,
          applyMetadata_book m2 l h1 h2 h3,
          eraseSid_ext hsrc ht rfl hrid hsc huniq⟩
      | false =>
        cases h4 : is_review_id l with
        | true =>
          cases hg : get_review_id l with
          | some n =>
            left
            refine ⟨{ m1 with review_id := some n }, { m2 with review_id := some n },
              by rw [applyMetadata_review m1 l h1 h2 h3 h4, hg],
              by rw [applyMetadata_review m2 l h1 h2 h3 h4, hg],
              eraseSid_ext hsrc ht hbk rfl hsc huniq⟩
          | none =>
            right
            exact ⟨_, by rw [applyMetadata_review m1 l h1 h2 h3 h4, hg],
              by rw [applyMetadata_review m2 l h1 h2 h3 h4, hg]⟩
        | false =>
          cases h5 : is_score l with
          | true =>
            cases hg : get_score l with
            | some v =>
              left
              refine ⟨{ m1 with score := some v }, { m2 with score := some v },
                by rw [applyMetadata_scoreCase m1 l h1 h2 h3 h4 h5, hg],
                by rw [applyMetadata_scoreCase m2 l h1 h2 h3 h4 h5, hg],
                eraseSid_ext hsrc ht hbk hrid rfl huniq⟩
            | none =>
              right
              exact ⟨_, by rw [applyMetadata_scoreCase m1 l h1 h2 h3 h4 h5, hg],
                by rw [applyMetadata_scoreCase m2 l h1 h2 h3 h4 h5, hg]⟩
          | false =>
            left
            exact ⟨_, _, applyMetadata_other m1 l h1 h2 h3 h4 h5,
              applyMetadata_other m2 l h1 h2 h3 h4 h5, h⟩

/-- The scanning states of the original and the skip-free run agree on
buffer and `previous_filename`, and on the metadata up to `sentence_id`. -/
def relState (st1 st2 : ScanState) : Prop :=
  st1.buffer = st2.buffer ∧ st1.prev = st2.prev
    ∧ eraseSid st1.meta = eraseSid st2.meta

theorem docChangeFlush_eraseSid {st1 st2 : ScanState} (hrel : relState st1 st2)
    (f : PyStr) :
    (docChangeFlush st1 f).1.map eraseSidRec
        = (docChangeFlush st2 f).1.map eraseSidRec
    ∧ relState (docChangeFlush st1 f).2 (docChangeFlush st2 f).2 := by
  obtain ⟨hb, hp, hm⟩ := hrel
  rw [docChangeFlush_eq, docChangeFlush_eq]
  by_cases hc : st1.prev ≠ none ∧ st1.prev ≠ some f ∧ st1.buffer ≠ []
  · have hc2 : st2.prev ≠ none ∧ st2.prev ≠ some f ∧ st2.buffer ≠ [] := by
      rw [← hp, ← hb]
      exact hc
    rw [if_pos hc, if_pos hc2]
    constructor
    · simp [eraseSidRec, hb, hm]
    · exact ⟨by simp, by simp [hp], by simp [hm]⟩
  · have hc2 : ¬(st2.prev ≠ none ∧ st2.prev ≠ some f ∧ st2.buffer ≠ []) := by
      rw [← hp, ← hb]
      exact hc
    rw [if_neg hc, if_neg hc2]
    exact ⟨rfl, hb, hp, hm⟩

theorem stepLine_eraseSid {st1 st2 : ScanState} (hrel : relState st1 st2)
    (idx1 idx2 : Nat) (f l : PyStr) :
    (stepLine idx1 st1 (f, l)).1.map eraseSidRec
        = (stepLine idx2 st2 (f, l)).1.map eraseSidRec
    ∧ relState (stepLine idx1 st1 (f, l)).2.1 (stepLine idx2 st2 (f, l)).2.1
    ∧ (stepLine idx1 st1 (f, l)).2.2 = (stepLine idx2 st2 (f, l)).2.2 := by
  have hd := docChangeFlush_eraseSid hrel f
  have hmr : eraseSid (refreshMeta (docChangeFlush st1 f).2.meta idx1 f)
      = eraseSid (refreshMeta (docChangeFlush st2 f).2.meta idx2 f) :=
    refreshMeta_eraseSid hd.2.2.2 idx1 idx2 f
  cases hms : must_skip_line l with
  | true =>
    rw [stepLine_skip idx1 st1 f l hms, stepLine_skip idx2 st2 f l hms]
    exact ⟨hd.1, hd.2, rfl⟩
  | false =>
    cases hmd : is_metadata l with
    | true =>
      rcases applyMetadata_eraseSid hmr l with ⟨r1, r2, ha1, ha2, hr⟩ | ⟨e, ha1, ha2⟩
      · rw [stepLine_metadata_ok idx1 st1 f l r1 hms hmd ha1,
          stepLine_metadata_ok idx2 st2 f l r2 hms hmd ha2]
        exact ⟨hd.1, ⟨hd.2.1, hd.2.2.1, hr⟩, rfl⟩
      · rw [stepLine_metadata_error idx1 st1 f l e hms hmd ha1,
          stepLine_metadata_error idx2 st2 f l e hms hmd ha2]
        exact ⟨hd.1, ⟨hd.2.1, hd.2.2.1, hmr⟩, rfl⟩
    | false =>
      cases hsep : is_separator_line l with
      | true =>
        rw [stepLine_blank idx1 st1 f l hms hmd hsep,
          stepLine_blank idx2 st2 f l hms hmd hsep]
        refine ⟨?_, ⟨rfl, rfl, hmr⟩, rfl⟩
        rw [List.map_append, List.map_append, hd.1]
        congr 1
        have hbuf2 : (docChangeFlush st2 f).2.buffer
            = (docChangeFlush st1 f).2.buffer := hd.2.1.symm
        by_cases hbuf : (docChangeFlush st1 f).2.buffer = []
        · rw [if_pos hbuf, if_pos (by rw [hbuf2, hbuf])]
        · rw [if_neg hbuf, if_neg (by rw [hbuf2]; exact hbuf)]
          simp [eraseSidRec, hmr, hd.2.1]
      | false =>
        rw [stepLine_content idx1 st1 f l hms hmd hsep,
          stepLine_content idx2 st2 f l hms hmd hsep]
        exact ⟨hd.1, ⟨by simp [hd.2.1], rfl, hmr⟩, rfl⟩

theorem stepLine_prev_nonskip (idx : Nat) (st : ScanState) (f l : PyStr)
    (hms : must_skip_line l = false) :
    (stepLine idx st (f, l)).2.1.prev
      = (if is_metadata l = true then st.prev else some f) := by
  cases hmd : is_metadata l with
  | true =>
    cases happ : applyMetadata (refreshMeta (docChangeFlush st f).2.meta idx f) l with
    | ok m2 =>
      rw [stepLine_metadata_ok idx st f l m2 hms hmd happ]
      simp [docChangeFlush_prev]
    | error e =>
      rw [stepLine_metadata_error idx st f l e hms hmd happ]
      simp [docChangeFlush_prev]
  | false =>
    cases hsep : is_separator_line l with
    | true =>
      rw [stepLine_blank idx st f l hms hmd hsep]
      simp
    | false =>
      rw [stepLine_content idx st f l hms hmd hsep]
      simp

theorem scanAux_removeSkips : ∀ (lines : List Line) (idx1 idx2 : Nat)
    (st1 st2 : ScanState), relState st1 st2 →
    skipsDocile st1.prev lines = true →
    (scanAux idx1 st1 lines).1.map eraseSidRec
        = (scanAux idx2 st2 (removeSkips lines)).1.map eraseSidRec
    ∧ relState (scanAux idx1 st1 lines).2.1
        (scanAux idx2 st2 (removeSkips lines)).2.1
    ∧ (scanAux idx1 st1 lines).2.2 = (scanAux idx2 st2 (removeSkips lines)).2.2 := by
  intro lines
  induction lines with
  | nil =>
    intro idx1 idx2 st1 st2 hrel hd
    simp only [removeSkips, List.filter_nil, scanAux]
    exact ⟨trivial, hrel, trivial⟩
  | cons fl rest ih =>
    intro idx1 idx2 st1 st2 hrel hd
    obtain ⟨f, t⟩ := fl
    cases hms : must_skip_line t with
    | true =>
      have hdrop : removeSkips ((f, t) :: rest) = removeSkips rest := by
        simp [removeSkips, List.filter, hms]
      have hdoc : (st1.prev = none ∨ st1.prev = some f)
          ∧ skipsDocile st1.prev rest = true := by
        rw [skipsDocile] at hd
        simp only [hms, if_true, Bool.and_eq_true, decide_eq_true_eq] at hd
        exact hd
      have hnoflush : docChangeFlush st1 f = ([], st1) := by
        rw [docChangeFlush_eq, if_neg]
        intro hcond
        cases hdoc.1 with
        | inl h0 => exact hcond.1 h0
        | inr h0 => exact hcond.2.1 h0
      have hs : stepLine idx1 st1 (f, t) = ([], st1, none) := by
        rw [stepLine_skip idx1 st1 f t hms, hnoflush]
      rw [hdrop, scanAux_cons_none idx1 st1 (f, t) _ _ rest hs]
      have hres := ih (idx1 + 1) idx2 st1 st2 hrel hdoc.2
      simpa using hres
    | false =>
      have hkeep : removeSkips ((f, t) :: rest) = (f, t) :: removeSkips rest := by
        simp [removeSkips, List.filter, hms]
      rw [hkeep]
      have hstep := stepLine_eraseSid hrel idx1 idx2 f t
      have hdoc2 : skipsDocile (stepLine idx1 st1 (f, t)).2.1.prev rest = true := by
        rw [stepLine_prev_nonskip idx1 st1 f t hms]
        rw [skipsDocile] at hd
        by_cases hmd : is_metadata t = true
        · simp only [hms, Bool.false_eq_true, if_false, hmd, if_true] at hd ⊢
          exact hd
        · have hmd' : is_metadata t = false := by
            cases hm : is_metadata t with
            | false => rfl
            | true => exact absurd hm hmd
          simp only [hms, Bool.false_eq_true, if_false, hmd', if_true] at hd ⊢
          exact hd
      cases hs1 : stepLine idx1 st1 (f, t) with
      | mk out1 r1 =>
        obtain ⟨st1', e1⟩ := r1
        cases hs2 : stepLine idx2 st2 (f, t) with
        | mk out2 r2 =>
          obtain ⟨st2', e2⟩ := r2
          rw [hs1, hs2] at hstep
          rw [hs1] at hdoc2
          cases e1 with
          | some e =>
            have he2 : some e = e2 := hstep.2.2
            rw [← he2] at hs2
            rw [scanAux_cons_error idx1 st1 (f, t) _ _ e rest hs1,
              scanAux_cons_error idx2 st2 (f, t) _ _ e (removeSkips rest) hs2]
            exact ⟨hstep.1, hstep.2.1, rfl⟩
          | none =>
            have he2 : e2 = none := hstep.2.2.symm
            subst he2
            rw [scanAux_cons_none idx1 st1 (f, t) _ _ rest hs1,
              scanAux_cons_none idx2 st2 (f, t) _ _ (removeSkips rest) hs2]
            have htail := ih (idx1 + 1) (idx2 + 1) st1' st2' hstep.2.1 hdoc2
            refine ⟨?_, htail.2.1, htail.2.2⟩
            rw [List.map_append, List.map_append, hstep.1, htail.1]

theorem read_sentences_removeSkips (lines : List Line)
    (hd : skipsDocile none lines = true) :
    (read_sentences lines).1.map eraseSidRec
        = (read_sentences (removeSkips lines)).1.map eraseSidRec
    ∧ (read_sentences lines).2 = (read_sentences (removeSkips lines)).2 := by
  have h := scanAux_removeSkips lines 0 0 initialState initialState
    ⟨rfl, rfl, rfl⟩ hd
  unfold read_sentences
  cases hsc1 : scanAux 0 initialState lines with
  | mk o1 r1 =>
    obtain ⟨s1, e1⟩ := r1
    cases hsc2 : scanAux 0 initialState (removeSkips lines) with
    | mk o2 r2 =>
      obtain ⟨s2, e2⟩ := r2
      rw [hsc1, hsc2] at h
      cases e1 with
      | some e =>
        have he2 : some e = e2 := h.2.2
        rw [← he2]
        exact ⟨h.1, rfl⟩
      | none =>
        have he2 : e2 = none := h.2.2.symm
        subst he2
        refine ⟨?_, rfl⟩
        rw [List.map_append, List.map_append, h.1]
        congr 1
        have hbuf : s1.buffer = s2.buffer := h.2.1.1
        by_cases hb : s1.buffer = []
        · rw [if_pos hb, if_pos (by rw [← hbuf]; exact hb)]
        · rw [if_neg hb, if_neg (by rw [← hbuf]; exact hb)]
          simp [eraseSidRec, hbuf, h.2.1.2.2]

/-- C3 counterexample inputs. -/
def exC3a : List Line :=
  [(pstr "a.txt", pstr "[x]\n"), (pstr "a.txt", pstr "t\tL+\n")]

def exC3b : List Line :=
  [(pstr "a.txt", pstr "t\tL+\n"), (pstr "b.txt", pstr "[x]\n"),
   (pstr "a.txt", pstr "u\tM\n")]

/-- C3 counterexample: (1) removing a skip line shifts the global line
ordinals, so `sentence_id` changes (0 instead of 1 here) and the record
sequences differ; (2) a skip line whose document identifier differs from
its neighbours' itself triggers the cross-document flush, so removing it
even changes the number of records (2 versus 1) — the sequences differ
beyond `sentence_id`. -/
theorem remove_skips_changes_records :
    read_sentences (removeSkips exC3a) ≠ read_sentences exC3a
    ∧ (read_sentences exC3a).1.map (fun r => r.1.sentence_id) = [some 1]
    ∧ (read_sentences (removeSkips exC3a)).1.map (fun r => r.1.sentence_id)
        = [some 0]
    ∧ (read_sentences (removeSkips exC3b)).1.map eraseSidRec
        ≠ (read_sentences exC3b).1.map eraseSidRec
    ∧ (read_sentences exC3b).1.length = 2
    ∧ (read_sentences (removeSkips exC3b)).1.length = 1 := by
  refine ⟨by decide, by decide, by decide, by decide, by decide, by decide⟩

/-- C3 (amended): provided every skip line carries the same document
identifier as the nearest preceding blank-or-content line (so that no skip
line sits at a document boundary where it would itself trigger the
cross-document flush), removing all skip lines leaves the emitted record
sequence identical field for field except `sentence_id` — which shifts by
the number of removed lines preceding it, since it is the global line
ordinal — and leaves the error outcome unchanged. -/
theorem remove_skips_preserves_records_mod_sid (lines : List Line)
    (hd : skipsDocile none lines = true) :
    (read_sentences_output lines).1.map eraseSidOut
        = (read_sentences_output (removeSkips lines)).1.map eraseSidOut
    ∧ (read_sentences_output lines).2
        = (read_sentences_output (removeSkips lines)).2 := by
  have key := read_sentences_removeSkips lines hd
  unfold read_sentences_output
  constructor
  · rw [List.map_map, List.map_map]
    have hcomp : eraseSidOut ∘ (fun r : Rec => (r.1, convert_buffer (r.2.map Prod.snd)))
        = (fun r : Rec => (r.1, convert_buffer (r.2.map Prod.snd))) ∘ eraseSidRec := rfl
    rw [hcomp, ← List.map_map, ← List.map_map, key.1]
  · exact key.2

/-- C3 witness: the amended theorem at a concrete docile input — a skip
line in the middle of a document — where the skip-free run emits the same
records up to `sentence_id`. -/
theorem remove_skips_preserves_records_witness :
    (read_sentences_output
        [(pstr "a.txt", pstr "t\tL+\n"), (pstr "a.txt", pstr "[s]\n"),
         (pstr "a.txt", pstr "u\tM\n"), (pstr "a.txt", pstr "\n")]).1.map eraseSidOut
      = (read_sentences_output (removeSkips
          [(pstr "a.txt", pstr "t\tL+\n"), (pstr "a.txt", pstr "[s]\n"),
           (pstr "a.txt", pstr "u\tM\n"), (pstr "a.txt", pstr "\n")])).1.map eraseSidOut
    ∧ (read_sentences_output
        [(pstr "a.txt", pstr "t\tL+\n"), (pstr "a.txt", pstr "[s]\n"),
         (pstr "a.txt", pstr "u\tM\n"), (pstr "a.txt", pstr "\n")]).2
      = (read_sentences_output (removeSkips
          [(pstr "a.txt", pstr "t\tL+\n"), (pstr "a.txt", pstr "[s]\n"),
           (pstr "a.txt", pstr "u\tM\n"), (pstr "a.txt", pstr "\n")])).2 :=
  remove_skips_preserves_records_mod_sid
    [(pstr "a.txt", pstr "t\tL+\n"), (pstr "a.txt", pstr "[s]\n"),
     (pstr "a.txt", pstr "u\tM\n"), (pstr "a.txt", pstr "\n")] (by decide)
